import Mathlib

/-!
# DocXaur package-assembly engine: verification of the specification claims

Shallow embedding of the DocXaur DOCX generator (TypeScript) core:
unit conversion and parsing (`core/utils.ts`), XML escaping, the
relationship reconciler (`core/relationships.ts`), table cell/row/table
rendering (`blocks/table.ts`), the image registry and package assembler
(`core/docxaur.ts`), sections (`blocks/section.ts`) and the image block
(`blocks/image.ts`).

Number model: every JS number reaching these call sites is produced by
parsing a decimal literal out of a dimension string (or is an integer
constant) and is immediately consumed by `Math.round`/`parseInt`, so we
model JS numbers as exact decimal fractions `mant / 10 ^ exp`.  JS `NaN`
propagation (from `parseFloat`/`parseInt` of malformed input) is
modelled with `Option` (`none` = NaN).  JS strings are Lean `String`s;
the character-scanning helpers of the relationship reconciler work on
`List Char` (`String.data`).
-/

set_option maxRecDepth 100000

namespace DocXaur

/-- Exact decimal fraction `mant / 10 ^ exp`, the value class of every JS
number flowing through the unit converters (all are parsed from decimal
digit strings or integer constants). -/
structure Decimal where
  mant : Int
  exp : Nat
  deriving Repr, DecidableEq

/-- Embed an integer constant as a JS number. -/
def Decimal.ofInt (n : Int) : Decimal := ⟨n, 0⟩

/-- Multiply a JS number by an integer constant (exact). -/
def Decimal.mulInt (d : Decimal) (k : Int) : Decimal := ⟨d.mant * k, d.exp⟩

/-- Divide a JS number by 10 (exact). -/
def Decimal.divTen (d : Decimal) : Decimal := ⟨d.mant, d.exp + 1⟩

/-- JS `Math.round`: round half toward positive infinity,
`⌊x + 1/2⌋ = fdiv (2·mant + 10^exp) (2·10^exp)`. -/
def Decimal.jsRound (d : Decimal) : Int :=
  Int.fdiv (2 * d.mant + 10 ^ d.exp) (2 * (10 ^ d.exp : Nat))

/-- `cmToTwips` from `core/utils.ts`: `Math.round(cm * 567)`. -/
def cmToTwips (cm : Decimal) : Int := (cm.mulInt 567).jsRound

/-- `cmToEmu` from `core/utils.ts`: `Math.round(cm * 360000)`. -/
def cmToEmu (cm : Decimal) : Int := (cm.mulInt 360000).jsRound

/-- `ptToHalfPoints` from `core/utils.ts`: `Math.round(pt * 2)`. -/
def ptToHalfPoints (pt : Decimal) : Int := (pt.mulInt 2).jsRound

/-- Numeric value of a digit string (base 10). -/
def digitsVal (ds : List Char) : Nat :=
  ds.foldl (fun a c => 10 * a + (c.toNat - 48)) 0

/-- JS `parseFloat` restricted to its call sites' inputs (strings of
digits and dots, as matched by the regex `[\d.]+`): longest prefix of
the form `digits [ '.' digits ]`; `none` models NaN (no leading digits
and no fractional digits, e.g. `"."`).  The `parseFloat` features never
exercised by these inputs (sign, exponent, leading whitespace) do not
arise. -/
def jsParseFloat (cs : List Char) : Option Decimal :=
  let d1 := cs.takeWhile Char.isDigit
  let r1 := cs.dropWhile Char.isDigit
  match r1 with
  | '.' :: r2 =>
      let d2 := r2.takeWhile Char.isDigit
      if d1.isEmpty && d2.isEmpty then none
      else some ⟨digitsVal (d1 ++ d2), d2.length⟩
  | _ => if d1.isEmpty then none else some ⟨digitsVal d1, 0⟩

/-- JS `parseInt(s, 10)`: optional sign then leading digits; `none`
models NaN. -/
def jsParseInt (s : String) : Option Int :=
  let go : List Char → Option Nat := fun cs =>
    let ds := cs.takeWhile Char.isDigit
    if ds.isEmpty then none else some (digitsVal ds)
  match s.data with
  | '-' :: rest => (go rest).map (fun n => -(n : Int))
  | '+' :: rest => (go rest).map (fun n => (n : Int))
  | cs => (go cs).map (fun n => (n : Int))

/-- Split a dimension string against the anchored regex
`^([\d.]+)(cm|pt|mm|in|%)$` of `parseNumberTwips`: returns the numeric
body and the unit suffix when the whole string matches. -/
def splitUnitTwips (width : String) : Option (List Char × String) :=
  let take (body : List Char) (unit : String) : Option (List Char × String) :=
    let b := body.reverse
    if b.isEmpty || !b.all (fun c => c.isDigit || c == '.') then none
    else some (b, unit)
  match width.data.reverse with
  | '%' :: rest => take rest "%"
  | 'm' :: 'c' :: rest => take rest "cm"
  | 'm' :: 'm' :: rest => take rest "mm"
  | 't' :: 'p' :: rest => take rest "pt"
  | 'n' :: 'i' :: rest => take rest "in"
  | _ => none

/-- `parseNumberTwips` from `core/utils.ts`: parse `"10cm"`, `"20pt"`,
`"25mm"`, `"1in"`, `"50%"` into twips; a string that fails the regex
returns the documented default `1000`; `none` models the NaN produced
when `parseFloat` of the numeric body is NaN. -/
def parseNumberTwips (width : String) : Option Int :=
  match splitUnitTwips width with
  | none => some 1000
  | some (body, unit) =>
    match jsParseFloat body with
    | none => none
    | some v =>
      if unit == "cm" then some (cmToTwips v)
      else if unit == "mm" then some ((v.mulInt 567).divTen.jsRound)
      else if unit == "pt" then some ((v.mulInt 20).jsRound)
      else if unit == "in" then some ((v.mulInt 1440).jsRound)
      else some ((v.mulInt 50).jsRound)

/-- Split against the regex `^([\d.]+)(cm|pt|mm|in|px)$` of
`parseImageSize`. -/
def splitUnitImage (size : String) : Option (List Char × String) :=
  let take (body : List Char) (unit : String) : Option (List Char × String) :=
    let b := body.reverse
    if b.isEmpty || !b.all (fun c => c.isDigit || c == '.') then none
    else some (b, unit)
  match size.data.reverse with
  | 'm' :: 'c' :: rest => take rest "cm"
  | 'm' :: 'm' :: rest => take rest "mm"
  | 't' :: 'p' :: rest => take rest "pt"
  | 'n' :: 'i' :: rest => take rest "in"
  | 'x' :: 'p' :: rest => take rest "px"
  | _ => none

/-- `parseImageSize` from `core/utils.ts`: size strings to EMU; a
non-matching string yields `cmToEmu(5)`. -/
def parseImageSize (size : String) : Option Int :=
  match splitUnitImage size with
  | none => some (cmToEmu (Decimal.ofInt 5))
  | some (body, unit) =>
    match jsParseFloat body with
    | none => none
    | some v =>
      if unit == "cm" then some (cmToEmu v)
      else if unit == "mm" then some (cmToEmu v.divTen)
      else if unit == "in" then some ((v.mulInt 914400).jsRound)
      else if unit == "pt" then some ((v.mulInt 12700).jsRound)
      else some ((v.mulInt 9525).jsRound)

/-- Print a JS number that is an integer unless it is NaN (how the
template literals interpolate the rounded values). -/
def showNum (n : Option Int) : String :=
  match n with
  | none => "NaN"
  | some n => toString n

/-- The apostrophe character (written by code to stay clear of literal
quoting pitfalls). -/
def apos : Char := Char.ofNat 39

/-- One global single-character replacement, JS `s.replace(/c/g, rep)`. -/
def replaceAllChar (s : List Char) (c : Char) (rep : List Char) : List Char :=
  match s with
  | [] => []
  | x :: xs => (if x = c then rep else [x]) ++ replaceAllChar xs c rep

/-- `escapeXML` from `core/utils.ts` on character lists: the chain of five
global replaces, ampersand first. -/
def escapeXMLList (s : List Char) : List Char :=
  replaceAllChar
    (replaceAllChar
      (replaceAllChar
        (replaceAllChar
          (replaceAllChar s '&' "&amp;".data)
          '<' "&lt;".data)
        '>' "&gt;".data)
      '"' "&quot;".data)
    apos "&apos;".data

/-- `escapeXML` from `core/utils.ts`. -/
def escapeXML (s : String) : String := ⟨escapeXMLList s.data⟩

/-- Spec-side single-pass characterization of XML escaping: each of the
five special characters maps to its entity reference, all others are
unchanged.  Used to compare `escapeXML` (the source's replace chain)
against the spec's description. -/
def specEscapeChar (c : Char) : List Char :=
  if c = '&' then "&amp;".data
  else if c = '<' then "&lt;".data
  else if c = '>' then "&gt;".data
  else if c = '"' then "&quot;".data
  else if c = apos then "&apos;".data
  else [c]

/-- JS truthiness of an optional boolean field. -/
def truthyB (o : Option Bool) : Bool := o.getD false

/-- JS truthiness of an optional string field (empty string is falsy). -/
def truthyS (o : Option String) : Bool :=
  match o with
  | some s => s != ""
  | none => false

/-- JS truthiness of an optional number field (0 is falsy). -/
def truthyD (o : Option Decimal) : Bool :=
  match o with
  | some d => d.mant != 0
  | none => false

/-- Run style carried by a `TableCellRun` (`blocks/table.ts`). -/
structure RunStyle where
  bold : Option Bool := none
  italic : Option Bool := none
  underline : Option Bool := none
  fontSize : Option Decimal := none
  fontColor : Option String := none
  fontName : Option String := none
  deriving Repr, DecidableEq

/-- `Object.values(style).some((v) => v !== undefined)`: the rPr wrapper
is emitted when any style field is present. -/
def RunStyle.anyField (st : RunStyle) : Bool :=
  st.bold.isSome || st.italic.isSome || st.underline.isSome ||
    st.fontSize.isSome || st.fontColor.isSome || st.fontName.isSome

/-- Body of the `<w:rPr>` block of `TableCellRun.toXML`. -/
def RunStyle.rPrBody (st : RunStyle) : String :=
  (if truthyB st.bold then "            <w:b/>\n" else "")
  ++ (if truthyB st.italic then "            <w:i/>\n" else "")
  ++ (if truthyB st.underline then "            <w:u w:val=\"single\"/>\n"
      else "")
  ++ (match st.fontSize with
      | some fs =>
        if fs.mant != 0 then
          "            <w:sz w:val=\"" ++ toString (ptToHalfPoints fs)
            ++ "\"/>\n"
        else ""
      | none => "")
  ++ (match st.fontColor with
      | some c =>
        if c != "" then "            <w:color w:val=\"" ++ c ++ "\"/>\n"
        else ""
      | none => "")
  ++ (match st.fontName with
      | some f =>
        if f != "" then
          "            <w:rFonts w:ascii=\"" ++ f ++ "\" w:hAnsi=\"" ++ f
            ++ "\"/>\n"
        else ""
      | none => "")

/-- The optional `<w:rPr>` block of `TableCellRun.toXML`. -/
def runRPrXML (style : Option RunStyle) : String :=
  match style with
  | some st =>
    if st.anyField then
      "          <w:rPr>\n" ++ st.rPrBody ++ "          </w:rPr>\n"
    else ""
  | none => ""

/-- `TableCellRun` from `blocks/table.ts`: a formatted text run (or a
raw pre-rendered shape fragment when `isShape`). -/
structure TableCellRun where
  isShape : Bool := false
  text : String
  style : Option RunStyle := none
  deriving Repr, DecidableEq

/-- `TableCellRun.toXML`: shape runs return their raw text; text runs
produce `<w:r>` with optional run properties and the escaped text inside
`<w:t xml:space="preserve">`. -/
def TableCellRun.toXML (r : TableCellRun) : String :=
  if r.isShape then r.text
  else
    "        <w:r>\n"
    ++ runRPrXML r.style
    ++ "          <w:t xml:space=\"preserve\">" ++ escapeXML r.text
    ++ "</w:t>\n"
    ++ "        </w:r>\n"

/-- JS `width.endsWith("%")` (single-character suffix test). -/
def jsEndsWithPercent (s : String) : Bool := s.data.getLast? == some '%'

/-- Result record of `parseTableCellWidth`: resolved magnitude and OOXML
width unit kind (`"pct"` or `"dxa"`). -/
structure CellWidth where
  value : Option Int
  kind : String
  deriving Repr, DecidableEq

/-- `parseTableCellWidth` from `blocks/table.ts`: a width string ending
in `%` resolves to `parseInt(width) * 50` of type `pct`; anything else
resolves through `parseNumberTwips` to type `dxa`. -/
def parseTableCellWidth (width : String) : CellWidth :=
  let isPercentage := jsEndsWithPercent width
  if isPercentage then
    ⟨(jsParseInt width).map (fun n => n * 50), "pct"⟩
  else
    ⟨parseNumberTwips width, "dxa"⟩

/-! ## Relationship reconciler (`core/relationships.ts`) -/

/-- The XML declaration used by `ensureImageRelationships`. -/
def xmlHeader : String :=
  "<?xml version=\"1.0\" encoding=\"UTF-8\" standalone=\"yes\"?>"

/-- The package-relationships namespace (`REL_NS`). -/
def REL_NS : String :=
  "http://schemas.openxmlformats.org/package/2006/relationships"

/-- The image relationship type URI (`IMAGE_REL`). -/
def IMAGE_REL : String :=
  "http://schemas.openxmlformats.org/officeDocument/2006/relationships/image"

/-- `openTag` of `ensureImageRelationships`. -/
def relOpenTag : String := "<Relationships xmlns=\"" ++ REL_NS ++ "\">"

/-- `closeTag` of `ensureImageRelationships`. -/
def relCloseTag : String := "</Relationships>"

/-- `ImageRelationship` record from `core/relationships.ts`. -/
structure ImageRelationship where
  rid : String
  target : String
  deriving Repr, DecidableEq

/-- Try to match the regex `Id="(rId\d+)"` at the head of the character
list; on success return the captured group (`rId` + digits, maximal
munch) and the characters after the closing quote. -/
def matchIdAt (s : List Char) : Option (List Char × List Char) :=
  match s with
  | 'I' :: 'd' :: '=' :: '"' :: 'r' :: 'I' :: 'd' :: rest =>
    let ds := rest.takeWhile Char.isDigit
    match rest.dropWhile Char.isDigit with
    | '"' :: tail =>
      if ds.isEmpty then none else some ('r' :: 'I' :: 'd' :: ds, tail)
    | _ => none
  | _ => none

/-- Left-to-right global scan of `/Id="(rId\d+)"/g`, continuing after
the end of each match, with explicit fuel (structural recursion; the
fuel is sufficient whenever it bounds the list length, since every match
consumes at least one character). -/
def scanIdsAux (fuel : Nat) (s : List Char) : List (List Char) :=
  match fuel, s with
  | 0, _ => []
  | _, [] => []
  | fuel + 1, x :: xs =>
    match matchIdAt (x :: xs) with
    | some (r, tail) => r :: scanIdsAux fuel tail
    | none => scanIdsAux fuel xs

/-- All ids captured by `base.match(/Id="(rId\d+)"/g)` followed by the
per-match extraction of the captured group: the `existingIds` set of
`ensureImageRelationships` (as a left-to-right list). -/
def scanIds (s : List Char) : List (List Char) := scanIdsAux s.length s

/-- Substring occurrence test, JS `s.includes(t)`. -/
def containsSub (s pat : List Char) : Bool :=
  match s with
  | [] => pat.isEmpty
  | _ :: xs => pat.isPrefixOf s || containsSub xs pat

/-- JS `s.replace(t, r)` for a plain-string pattern: replace the first
(leftmost) occurrence, if any. -/
def replaceFirst (s pat rep : List Char) : List Char :=
  match s with
  | [] => if pat.isEmpty then rep else []
  | x :: xs =>
    if pat.isPrefixOf (x :: xs) then rep ++ (x :: xs).drop pat.length
    else x :: replaceFirst xs pat rep

/-- JS whitespace recognized by `String.trim`. -/
def isJsWS (c : Char) : Bool :=
  c == ' ' || c == '\t' || c == '\n' || c == '\r' || c == '\x0b' ||
    c == '\x0c'

/-- JS `String.trim`. -/
def jsTrim (s : List Char) : List Char :=
  ((s.dropWhile isJsWS).reverse.dropWhile isJsWS).reverse

/-- One appended `<Relationship .../>` entry of
`ensureImageRelationships`. -/
def renderRelEntry (img : ImageRelationship) : String :=
  "<Relationship Id=\"" ++ img.rid ++ "\" Type=\"" ++ IMAGE_REL
    ++ "\" Target=\"" ++ img.target ++ "\"/>"

/-- `ensureImageRelationships` from `core/relationships.ts`: merge the
required image relationships into an existing relationships XML string
(or a fresh empty manifest), appending only entries whose id is not
already present. -/
def ensureImageRelationships (relsXml : Option String)
    (images : List ImageRelationship) : String :=
  let emptyBase := xmlHeader ++ relOpenTag ++ relCloseTag
  let base : String :=
    match relsXml with
    | some s => if (jsTrim s.data).length != 0 then s else emptyBase
    | none => emptyBase
  let existing := scanIds base.data
  let additions := String.join
    ((images.filter (fun img => !(existing.contains img.rid.data))).map
      renderRelEntry)
  if containsSub base.data relCloseTag.data then
    ⟨replaceFirst base.data relCloseTag.data
      (additions.data ++ relCloseTag.data)⟩
  else xmlHeader ++ relOpenTag ++ additions ++ relCloseTag

/-- The shape of a canonical relationship id: `rId` followed by at least
one decimal digit (the form `rId\d+` that the scanner of
`ensureImageRelationships` can recognize). -/
def canonicalRid (r : String) : Bool :=
  match r.data with
  | 'r' :: 'I' :: 'd' :: ds => !ds.isEmpty && ds.all Char.isDigit
  | _ => false

/-- The full text matched by `Id="(rId\d+)"` for a given captured id. -/
def idPat (r : List Char) : List Char := 'I' :: 'd' :: '=' :: '"' :: r ++ ['"']

/-! ## Table cells (`blocks/table.ts`) -/

/-- JS truthiness of an optional number used as a flag (`0` falsy). -/
def truthyI (o : Option Int) : Bool :=
  match o with
  | some n => n != 0
  | none => false

/-- The `image` member of `TableCellData`. -/
structure CellImage where
  url : String
  width : Option String := none
  height : Option String := none
  deriving Repr, DecidableEq

/-- `CellRunSegment` from `blocks/table.ts`: a formatted text segment, a
line-break request, or a page-break request.  (The shape segment variant
is outside this model; the claims under verification do not touch shape
rendering.) -/
inductive CellRunSegment where
  | textSeg (text : String) (style : RunStyle)
  | lineBreakSeg (n : Int)
  | pageBreakSeg (n : Int)
  deriving Repr, DecidableEq

/-- `EnhancedTableCellData` from `blocks/table.ts` (fields as used by the
cell renderer; an absent optional field is `none`, and an absent `runs`
array behaves identically to an empty one, which is how the renderer
tests it). -/
structure TableCellData where
  text : Option String := none
  image : Option CellImage := none
  runs : List CellRunSegment := []
  fontName : Option String := none
  fontSize : Option Decimal := none
  fontColor : Option String := none
  cellColor : Option String := none
  bold : Option Bool := none
  italic : Option Bool := none
  underline : Option Bool := none
  hAlign : Option String := none
  vAlign : Option String := none
  colspan : Option Int := none
  rowspan : Option Int := none
  height : Option String := none
  marginTop : Option String := none
  marginRight : Option String := none
  marginBottom : Option String := none
  marginLeft : Option String := none
  deriving Repr, DecidableEq

/-- The runs contributed by one segment inside `TableCell.buildRuns`
(`for` loops over a JS number iterate `max 0 n` times). -/
def segmentRuns (seg : CellRunSegment) : List TableCellRun :=
  match seg with
  | .lineBreakSeg n => List.replicate n.toNat ⟨false, "\n", none⟩
  | .pageBreakSeg n => List.replicate n.toNat ⟨false, "[PAGE_BREAK]", none⟩
  | .textSeg text st => [⟨false, text, some st⟩]

/-- `TableCell.buildRuns`: custom runs when present, otherwise a single
run from the cell text (a truthy `text`) with the cell-level style. -/
def buildRuns (data : TableCellData) : List TableCellRun :=
  if data.runs.length > 0 then
    (data.runs.map segmentRuns).flatten
  else if truthyS data.text then
    [⟨false, data.text.getD "",
      some ⟨data.bold, data.italic, data.underline, data.fontSize,
        data.fontColor, data.fontName⟩⟩]
  else []

/-- `TableCell.buildParagraphXML`: the `<w:p>` of a text cell; line- and
page-break runs are recognized by their marker text. -/
def buildParagraphXML (data : TableCellData) : String :=
  let jc := if data.hAlign == some "justify" then "both"
            else data.hAlign.getD "center"
  "      <w:p>\n        <w:pPr>\n          <w:jc w:val=\"" ++ jc
    ++ "\"/>\n        </w:pPr>\n"
  ++ String.join ((buildRuns data).map (fun run =>
      if run.text == "\n" then "        <w:r><w:br/></w:r>\n"
      else if run.text == "[PAGE_BREAK]" then
        "        <w:r><w:br w:type=\"page\"/></w:r>\n"
      else run.toXML))
  ++ "      </w:p>\n"

/-- `TableCell.getHeight`: explicit (truthy) height through
`parseNumberTwips`, else the 170-twip default. -/
def getHeight (data : TableCellData) : Option Int :=
  match data.height with
  | some h => if h != "" then parseNumberTwips h else some 170
  | none => some 170

/-- `TableColumn` from `core/docxaur.ts`. -/
structure TableColumn where
  width : String
  hAlign : Option String := none
  vAlign : Option String := none
  fontName : Option String := none
  fontSize : Option Decimal := none
  fontColor : Option String := none
  cellColor : Option String := none
  bold : Option Bool := none
  italic : Option Bool := none
  underline : Option Bool := none
  marginTop : Option String := none
  marginRight : Option String := none
  marginBottom : Option String := none
  marginLeft : Option String := none
  deriving Repr, DecidableEq

/-- `TableOptions` from `core/docxaur.ts`. -/
structure TableOptions where
  columns : List TableColumn
  width : Option String := none
  align : Option String := none
  borders : Option Bool := none
  indent : Option String := none
  marginTop : Option String := none
  marginRight : Option String := none
  marginBottom : Option String := none
  marginLeft : Option String := none
  deriving Repr, DecidableEq

/-- The horizontal-span directive of `TableCell.toXML`: the source guard
`colspan && colspan > 1` collapses to `1 < n` on a present value (a
value greater than 1 is necessarily truthy). -/
def gridSpanXML (colspan : Option Int) : String :=
  match colspan with
  | some n =>
    if 1 < n then "        <w:gridSpan w:val=\"" ++ toString n ++ "\"/>\n"
    else ""
  | none => ""

/-- The vertical-merge directive of `TableCell.toXML`:
`rowspan && rowspan > 1` emits the origin (`restart`) directive,
`rowspan === 0` the bare continuation directive. -/
def vMergeXML (rowspan : Option Int) : String :=
  match rowspan with
  | some n =>
    if 1 < n then "        <w:vMerge w:val=\"restart\"/>\n"
    else if n = 0 then "        <w:vMerge/>\n"
    else ""
  | none => ""

/-- The background-shade directive of `TableCell.toXML`. -/
def shdXML (cellColor : Option String) : String :=
  if truthyS cellColor then
    "        <w:shd w:val=\"clear\" w:color=\"auto\" w:fill=\""
      ++ cellColor.getD "" ++ "\"/>\n"
  else ""

/-- The cell-margin block of `TableCell.toXML` (emitted when at least
one of the resolved margins is present). -/
def tcMarXML (mt mr mb ml : Option String) : String :=
  if mt.isSome || mr.isSome || mb.isSome || ml.isSome then
    "        <w:tcMar>\n"
    ++ (match mt with
        | some v => "          <w:top   w:w=\"" ++ showNum (parseNumberTwips v)
            ++ "\" w:type=\"dxa\"/>\n"
        | none => "")
    ++ (match mr with
        | some v => "          <w:end   w:w=\"" ++ showNum (parseNumberTwips v)
            ++ "\" w:type=\"dxa\"/>\n"
        | none => "")
    ++ (match mb with
        | some v => "          <w:bottom w:w=\""
            ++ showNum (parseNumberTwips v) ++ "\" w:type=\"dxa\"/>\n"
        | none => "")
    ++ (match ml with
        | some v => "          <w:start w:w=\"" ++ showNum (parseNumberTwips v)
            ++ "\" w:type=\"dxa\"/>\n"
        | none => "")
    ++ "        </w:tcMar>\n"
  else ""

/-- `DocXaur.getImageRelId` from `core/docxaur.ts`: rId1–rId3 are
reserved for styles, fontTable and settings, so image `id` maps to
`rId(id+3)`. -/
def getImageRelId (imageId : Nat) : String := "rId" ++ toString (imageId + 3)

/-- The inline-drawing `<w:p>` of an image-bearing table cell
(`TableCell.toXML`, image branch).  `drawCtr` models the process-global
`Image.drawingCounter` consumed by `Image.nextId()`.  Returns the
fragment, the advanced counter and the relationship ids referenced by
the emitted `r:embed` attributes. -/
def cellImageXML (img : CellImage) (imageId : Nat) (hAlignOpt : Option String)
    (drawCtr : Nat) : String × Nat × List String :=
  let width := if truthyS img.width then parseImageSize (img.width.getD "")
               else some (cmToEmu (Decimal.ofInt 5))
  let height := if truthyS img.height then parseImageSize (img.height.getD "")
                else width
  let hAlign := hAlignOpt.getD "center"
  let relId := getImageRelId imageId
  let drawId := drawCtr
  let w := showNum width
  let h := showNum height
  let d := toString drawId
  let xml :=
    "      <w:p>\n"
    ++ (if hAlign != "left" then
          "        <w:pPr>\n          <w:jc w:val=\"" ++ hAlign
            ++ "\"/>\n        </w:pPr>\n"
        else "")
    ++ "        <w:r>\n           <w:drawing>\n             <wp:inline distT=\"0\" distB=\"0\" distL=\"0\" distR=\"0\">\n               <wp:extent cx=\""
    ++ w ++ "\" cy=\"" ++ h
    ++ "\"/>\n               <wp:effectExtent l=\"0\" t=\"0\" r=\"0\" b=\"0\"/>\n               <wp:docPr id=\""
    ++ d ++ "\" name=\"Picture " ++ d
    ++ "\"/>\n               <wp:cNvGraphicFramePr>\n                 <a:graphicFrameLocks noChangeAspect=\"1\"/>\n               </wp:cNvGraphicFramePr>\n               <a:graphic>\n                 <a:graphicData uri=\"http://schemas.openxmlformats.org/drawingml/2006/picture\">\n                   <pic:pic>\n                     <pic:nvPicPr>\n                       <pic:cNvPr id=\""
    ++ d ++ "\" name=\"Picture " ++ d
    ++ "\"/>\n                       <pic:cNvPicPr/>\n                     </pic:nvPicPr>\n                     <pic:blipFill>\n                       <a:blip r:embed=\""
    ++ relId
    ++ "\"/>\n                       <a:stretch><a:fillRect/></a:stretch>\n                     </pic:blipFill>\n                     <pic:spPr>\n                       <a:xfrm><a:off x=\"0\" y=\"0\"/><a:ext cx=\""
    ++ w ++ "\" cy=\"" ++ h
    ++ "\"/></a:xfrm>\n                       <a:prstGeom prst=\"rect\"><a:avLst/></a:prstGeom>\n                     </pic:spPr>\n                   </pic:pic>\n                 </a:graphicData>\n               </a:graphic>\n             </wp:inline>\n           </w:drawing>\n         </w:r>\n       </w:p>\n "
  (xml, drawCtr + 1, [relId])

/-- Fallback column for an out-of-range unconditional
`columns[colIndex].width` access (in JS this would be a TypeError; every
reachable call stays in range, and the theorems quantify over in-range
indices). -/
def defaultColumn : TableColumn := { width := "" }

/-- `TableCell.toXML` from `blocks/table.ts` (on data plus the `imageId`
the cell's `init` resolved): `<w:tc>` with width, alignment, merge,
shade and margin properties followed by the image drawing or the text
paragraph.  Returns the fragment, the advanced drawing counter, and the
referenced relationship ids. -/
def tableCellToXML (data : TableCellData) (imageId : Option Nat)
    (colIndex : Nat) (tableOptions : TableOptions) (drawCtr : Nat) :
    String × Nat × List String :=
  let vAlign := data.vAlign.getD "center"
  let colWidth := (tableOptions.columns.getD colIndex defaultColumn).width
  let widthSpec := parseTableCellWidth colWidth
  let col := tableOptions.columns.get? colIndex
  let mt := data.marginTop <|> (col.bind (·.marginTop)) <|> tableOptions.marginTop
  let mr := data.marginRight <|> (col.bind (·.marginRight)) <|>
    tableOptions.marginRight
  let mb := data.marginBottom <|> (col.bind (·.marginBottom)) <|>
    tableOptions.marginBottom
  let ml := data.marginLeft <|> (col.bind (·.marginLeft)) <|>
    tableOptions.marginLeft
  let tcPr :=
    "    <w:tc>\n      <w:tcPr>\n"
    ++ "        <w:tcW w:w=\"" ++ showNum widthSpec.value ++ "\" w:type=\""
    ++ widthSpec.kind ++ "\"/>\n"
    ++ "        <w:vAlign w:val=\"" ++ vAlign ++ "\"/>\n"
    ++ gridSpanXML data.colspan
    ++ vMergeXML data.rowspan
    ++ shdXML data.cellColor
    ++ tcMarXML mt mr mb ml
    ++ "      </w:tcPr>\n"
  match data.image, imageId with
  | some img, some iid =>
    let (content, ctr, refs) := cellImageXML img iid data.hAlign drawCtr
    (tcPr ++ content ++ "    </w:tc>\n", ctr, refs)
  | some _, none => (tcPr ++ buildParagraphXML data ++ "    </w:tc>\n", drawCtr, [])
  | none, _ => (tcPr ++ buildParagraphXML data ++ "    </w:tc>\n", drawCtr, [])

/-! ## Table rows, row definitions and the table state machine
(`blocks/table.ts`) -/

/-- `TableRowOptions` from `blocks/table.ts` (the source field `repeat`
is a Lean keyword, rendered here as `repeatFlag`). -/
structure TableRowOptions where
  header : Option Bool := none
  repeatFlag : Option Bool := none
  deriving Repr, DecidableEq

/-- A built `TableRow`: concrete cells (data plus the image id resolved
by `init`) and the row flags. -/
structure TableRowState where
  cells : List (TableCellData × Option Nat) := []
  header : Bool := false
  repeatFlag : Bool := false
  deriving Repr, DecidableEq

/-- Render the cells of a row left to right, passing each its column
index (`TableRow.toXML` loop). -/
def rowCellsXML (cells : List (TableCellData × Option Nat)) (i : Nat)
    (tableOptions : TableOptions) (ctr : Nat) : String × Nat × List String :=
  match cells with
  | [] => ("", ctr, [])
  | c :: rest =>
    let (x1, ctr1, r1) := tableCellToXML c.1 c.2 i tableOptions ctr
    let (x2, ctr2, r2) := rowCellsXML rest (i + 1) tableOptions ctr1
    (x1 ++ x2, ctr2, r1 ++ r2)

/-- `TableRow.toXML`: `<w:tr>` with the header-repeat directive, the row
height (maximum cell height over the 170-twip floor, NaN heights
ignored by the `>` comparison), and the cells. -/
def tableRowToXML (row : TableRowState) (tableOptions : TableOptions)
    (ctr : Nat) : String × Nat × List String :=
  let maxHeight : Int := row.cells.foldl
    (fun m c =>
      match getHeight c.1 with
      | some h => if h > m then h else m
      | none => m) 170
  let (cellsXml, ctr1, refs) := rowCellsXML row.cells 0 tableOptions ctr
  ("  <w:tr>\n    <w:trPr>\n"
    ++ (if row.header && row.repeatFlag then "      <w:tblHeader/>\n" else "")
    ++ "      <w:trHeight w:val=\"" ++ toString maxHeight
    ++ "\" w:hRule=\"atLeast\"/>\n    </w:trPr>\n"
    ++ cellsXml ++ "  </w:tr>\n", ctr1, refs)

/-- `RowSegment` from `blocks/table.ts`: a plain string cell, a rich
cell, a line-break cell or a page-break cell.  (The shape-cell variant
is outside this model; the claims under verification do not touch shape
rendering.) -/
inductive RowSegment where
  | strCell (s : String)
  | dataCell (d : TableCellData)
  | lineBreakCell (n : Option Int)
  | pageBreakCell (n : Option Int)
  deriving Repr, DecidableEq

/-- One recorded `row(...)` call: cells plus row options. -/
structure RowDef where
  cells : List RowSegment := []
  options : Option TableRowOptions := none
  deriving Repr, DecidableEq

/-- `Table` state from `blocks/table.ts`: declared row definitions,
built rows and the built flag. -/
structure TableState where
  options : TableOptions
  rowDefs : List RowDef := []
  rows : List TableRowState := []
  isBuilt : Bool := false
  deriving Repr, DecidableEq

/-- The `Table` constructor: `borders` defaults to `true` when
undefined. -/
def mkTable (options : TableOptions) : TableState :=
  { options := { options with borders := some (options.borders.getD true) } }

/-- `buildRows` normalization of a plain string cell: column defaults
with center alignment fallbacks. -/
def normalizeStrCell (s : String) (col : Option TableColumn) : TableCellData :=
  { text := some s,
    hAlign := (col.bind (·.hAlign)) <|> some "center",
    vAlign := (col.bind (·.vAlign)) <|> some "center",
    fontName := col.bind (·.fontName),
    fontSize := col.bind (·.fontSize),
    fontColor := col.bind (·.fontColor),
    cellColor := col.bind (·.cellColor),
    bold := col.bind (·.bold),
    italic := col.bind (·.italic),
    underline := col.bind (·.underline),
    marginTop := col.bind (·.marginTop),
    marginRight := col.bind (·.marginRight),
    marginBottom := col.bind (·.marginBottom),
    marginLeft := col.bind (·.marginLeft) }

/-- `buildRows` normalization of a rich cell: the source merges column
defaults under `??` and then spreads `cellData` on top, so a field
present on the cell wins and an absent one falls back to the column
default (with the center fallbacks for the alignments). -/
def normalizeDataCell (d : TableCellData) (col : Option TableColumn) :
    TableCellData :=
  { d with
    hAlign := d.hAlign <|> (col.bind (·.hAlign)) <|> some "center",
    vAlign := d.vAlign <|> (col.bind (·.vAlign)) <|> some "center",
    fontName := d.fontName <|> col.bind (·.fontName),
    fontSize := d.fontSize <|> col.bind (·.fontSize),
    fontColor := d.fontColor <|> col.bind (·.fontColor),
    cellColor := d.cellColor <|> col.bind (·.cellColor),
    bold := d.bold <|> col.bind (·.bold),
    italic := d.italic <|> col.bind (·.italic),
    underline := d.underline <|> col.bind (·.underline),
    marginTop := d.marginTop <|> col.bind (·.marginTop),
    marginRight := d.marginRight <|> col.bind (·.marginRight),
    marginBottom := d.marginBottom <|> col.bind (·.marginBottom),
    marginLeft := d.marginLeft <|> col.bind (·.marginLeft) }

/-- `buildRows` normalization of one row segment at column index `i`. -/
def normalizeSegment (options : TableOptions) (i : Nat) (seg : RowSegment) :
    TableCellData :=
  match seg with
  | .lineBreakCell n => { runs := [.lineBreakSeg (n.getD 1)] }
  | .pageBreakCell n => { runs := [.pageBreakSeg (n.getD 1)] }
  | .strCell s => normalizeStrCell s (options.columns.get? i)
  | .dataCell d => normalizeDataCell d (options.columns.get? i)

/-- Instantiate the cells of one recorded row (`buildRows` inner loop;
cells carry no image id yet). -/
def buildRowCells (options : TableOptions) (rd : RowDef) : TableRowState :=
  { cells := rd.cells.enum.map (fun p => (normalizeSegment options p.1 p.2, none)),
    header := (rd.options.bind (·.header)).getD false,
    repeatFlag := (rd.options.bind (·.repeatFlag)).getD false }

/-! ## Image registry (`core/docxaur.ts`) -/

/-- `ImageMapValue` from `core/docxaur.ts` (base64 payload, extension,
numeric id). -/
structure ImageMapValue where
  data : String
  extension : String
  id : Nat
  deriving Repr, DecidableEq

/-- The per-instance mutable registry state of one `DocXaur` object: the
insertion-ordered `images` map and the `imageCounter` (initially 1). -/
structure DocXaurState where
  images : List (String × ImageMapValue) := []
  imageCounter : Nat := 1
  deriving Repr, DecidableEq

/-- Oracle for `fetchImageAsBase64` on a successful run: base64 payload
and content-type-derived extension per locator.  A failed fetch aborts
the whole build, so the claims quantify over successful runs. -/
structure FetchEnv where
  data : String → String
  extension : String → String

/-- `this.images.get(url)` / `this.images.has(url)`. -/
def lookupImage (st : DocXaurState) (url : String) : Option ImageMapValue :=
  (st.images.find? (fun e => e.1 == url)).map (·.2)

/-- JS `Map.set`: update in place when the key exists (keeping its
insertion position), else append. -/
def setEntry (m : List (String × ImageMapValue)) (u : String)
    (v : ImageMapValue) : List (String × ImageMapValue) :=
  match m with
  | [] => [(u, v)]
  | (k, w) :: rest =>
    if k == u then (k, v) :: rest else (k, w) :: setEntry rest u v

/-- `DocXaur.registerImage` (one sequential, awaited call): return the
cached id, or fetch, allocate `imageCounter++` and store the record.
Also returns the list of locators fetched by this call (empty on a
cache hit). -/
def registerImage (env : FetchEnv) (st : DocXaurState) (url : String) :
    Nat × DocXaurState × List String :=
  match lookupImage st url with
  | some v => (v.id, st, [])
  | none =>
    let id := st.imageCounter
    (id, ⟨setEntry st.images url ⟨env.data url, env.extension url, id⟩, id + 1⟩,
      [url])

/-- A sequence of sequential `registerImage` calls: returned ids, final
state, fetch log. -/
def runRegisterSeq (env : FetchEnv) (st : DocXaurState) :
    List String → List Nat × DocXaurState × List String
  | [] => ([], st, [])
  | u :: rest =>
    let (id, st1, log1) := registerImage env st u
    let (ids, st2, log2) := runRegisterSeq env st1 rest
    (id :: ids, st2, log1 ++ log2)

/-- Per-cell outcome of the synchronous phase of a fan-out batch. -/
inductive CellRegStatus where
  | noImage
  | cached (id : Nat)
  | pending (url : String)
  deriving Repr, DecidableEq

/-- Resumption phase of a batch: each pending fetch continuation runs in
call order, allocates `imageCounter++` and stores its record
(`Map.set` overwrites an earlier record for the same locator). -/
def registerPhase2 (env : FetchEnv) (st : DocXaurState) :
    List String → List Nat × DocXaurState
  | [] => ([], st)
  | u :: rest =>
    let id := st.imageCounter
    let st1 : DocXaurState :=
      ⟨setEntry st.images u ⟨env.data u, env.extension u, id⟩, id + 1⟩
    let (ids, st2) := registerPhase2 env st1 rest
    (id :: ids, st2)

/-- Stitch resumed ids back to the cells in call order. -/
def mergeBatchIds : List CellRegStatus → List Nat → List (Option Nat)
  | [], _ => []
  | .noImage :: rest, ids => none :: mergeBatchIds rest ids
  | .cached i :: rest, ids => some i :: mergeBatchIds rest ids
  | .pending _ :: rest, i :: ids => some i :: mergeBatchIds rest ids
  | .pending _ :: rest, [] => none :: mergeBatchIds rest []

/-- Cooperative-scheduling model of the fan-out/fan-in cell
initialization (`Promise.all` over `cell.init`): the synchronous parts
of all the cells' `registerImage` calls run first (each `has(url)` check
observes the state at batch start — two unseen duplicates both miss),
then the suspended fetch continuations resume in call order and each
allocates an id and stores a record.  In JS every pre-`await` section of
the batch runs before any continuation, so this phase split is
scheduling-independent; uniform fetch latency fixes the resumption
order to call order. -/
def registerImagesBatch (env : FetchEnv) (st : DocXaurState)
    (urls : List (Option String)) :
    List (Option Nat) × DocXaurState × List String :=
  let statuses := urls.map (fun o =>
    match o with
    | none => CellRegStatus.noImage
    | some u =>
      match lookupImage st u with
      | some v => CellRegStatus.cached v.id
      | none => CellRegStatus.pending u)
  let pendings := statuses.filterMap (fun s =>
    match s with
    | .pending u => some u
    | _ => none)
  let (ids, st1) := registerPhase2 env st pendings
  (mergeBatchIds statuses ids, st1, pendings)

/-- Attach the resolved image ids of a batch back onto a row's cells. -/
def attachIds : List (TableCellData × Option Nat) → List (Option Nat) →
    List (TableCellData × Option Nat) × List (Option Nat)
  | [], ids => ([], ids)
  | c :: cs, [] => (((c.1, none)) :: (attachIds cs []).1, [])
  | c :: cs, i :: ids =>
    let (rest, rem) := attachIds cs ids
    ((c.1, i) :: rest, rem)

/-- Attach batch ids row by row. -/
def assignRowIds : List TableRowState → List (Option Nat) →
    List TableRowState × List (Option Nat)
  | [], ids => ([], ids)
  | r :: rest, ids =>
    let (cells1, rem) := attachIds r.cells ids
    let (rows1, rem2) := assignRowIds rest rem
    ({ r with cells := cells1 } :: rows1, rem2)

/-- `Table.buildRows`: no-op when already built; otherwise set the built
flag, instantiate all recorded rows and initialize every cell of every
row in one fan-out batch (registering any embedded image).  Returns the
built table, the advanced registry state, and the locators fetched. -/
def buildRows (env : FetchEnv) (st : DocXaurState) (t : TableState) :
    TableState × DocXaurState × List String :=
  if t.isBuilt then (t, st, [])
  else
    let rows0 := t.rowDefs.map (buildRowCells t.options)
    let urls := (rows0.map (fun r =>
      r.cells.map (fun c => c.1.image.map (·.url)))).flatten
    let (ids, st1, log) := registerImagesBatch env st urls
    let (rows1, _) := assignRowIds rows0 ids
    ({ t with rows := rows1, isBuilt := true }, st1, log)

/-- `Table.toXML` from `blocks/table.ts`: the direct `Element` render
entry always throws, directing callers to the Section context. -/
def tableToXML (_t : TableState) : Except String String :=
  Except.error "Table.toXML() requires a Section context—use section.table(...)"

/-- The `<w:tblBorders>` block emitted when `options.borders` is truthy. -/
def tblBordersXML : String :=
  "      <w:tblBorders>\n         <w:top    w:val=\"single\" w:sz=\"4\" w:space=\"0\" w:color=\"000000\"/>\n         <w:left   w:val=\"single\" w:sz=\"4\" w:space=\"0\" w:color=\"000000\"/>\n         <w:bottom w:val=\"single\" w:sz=\"4\" w:space=\"0\" w:color=\"000000\"/>\n         <w:right  w:val=\"single\" w:sz=\"4\" w:space=\"0\" w:color=\"000000\"/>\n         <w:insideH w:val=\"single\" w:sz=\"4\" w:space=\"0\" w:color=\"000000\"/>\n         <w:insideV w:val=\"single\" w:sz=\"4\" w:space=\"0\" w:color=\"000000\"/>\n       </w:tblBorders>\n "

/-- Render the built rows in order. -/
def tableRowsXML (rows : List TableRowState) (tableOptions : TableOptions)
    (ctr : Nat) : String × Nat × List String :=
  match rows with
  | [] => ("", ctr, [])
  | r :: rest =>
    let (x1, ctr1, refs1) := tableRowToXML r tableOptions ctr
    let (x2, ctr2, refs2) := tableRowsXML rest tableOptions ctr1
    (x1 ++ x2, ctr2, refs1 ++ refs2)

/-- `Table._toXMLWithSection` from `blocks/table.ts`: `<w:tbl>` with
table properties, the grid (percentage columns fall back to a 1440-twip
grid column), and the built rows.  Performs no built-state check. -/
def tableToXMLWithSection (t : TableState) (ctr : Nat) :
    String × Nat × List String :=
  let align := t.options.align.getD "center"
  let wpart :=
    if truthyS t.options.width then
      let ws := parseTableCellWidth (t.options.width.getD "")
      "      <w:tblW w:w=\"" ++ showNum ws.value ++ "\" w:type=\"" ++ ws.kind
        ++ "\"/>\n"
    else ""
  let ipart :=
    if truthyS t.options.indent then
      "      <w:tblInd w:w=\""
        ++ showNum (parseNumberTwips (t.options.indent.getD ""))
        ++ "\" w:type=\"dxa\"/>\n"
    else ""
  let borders := if truthyB t.options.borders then tblBordersXML else ""
  let grid := String.join (t.options.columns.map (fun col =>
    let ws := parseTableCellWidth col.width
    if ws.kind == "dxa" then
      "      <w:gridCol w:w=\"" ++ showNum ws.value ++ "\"/>\n"
    else "      <w:gridCol w:w=\"1440\"/>\n"))
  let (rowsXml, ctr1, refs) := tableRowsXML t.rows t.options ctr
  ("  <w:tbl>\n    <w:tblPr>\n" ++ wpart ++ ipart
    ++ "      <w:jc w:val=\"" ++ align ++ "\"/>\n" ++ borders
    ++ "    </w:tblPr>\n    <w:tblGrid>\n" ++ grid ++ "    </w:tblGrid>\n"
    ++ rowsXml ++ "  </w:tbl>\n", ctr1, refs)

/-! ## Image block (`blocks/image.ts`), sections (`blocks/section.ts`)
and the package assembler (`core/docxaur.ts`) -/

/-- `ImageOptions` from `core/docxaur.ts`. -/
structure ImageOptions where
  width : Option String := none
  height : Option String := none
  align : Option String := none
  deriving Repr, DecidableEq

/-- `Image.toXML` from `blocks/image.ts`: an inline drawing paragraph
referencing `rId(imageId+3)`; `drawCtr` models the class-static
`Image.drawingCounter` consumed by `Image.nextId()`.  Returns the
fragment, the advanced counter and the referenced relationship ids. -/
def imageToXML (imageId : Nat) (options : ImageOptions) (drawCtr : Nat) :
    String × Nat × List String :=
  let width := if truthyS options.width then
                 parseImageSize (options.width.getD "")
               else some (cmToEmu (Decimal.ofInt 10))
  let height := if truthyS options.height then
                  parseImageSize (options.height.getD "")
                else width
  let align := options.align.getD "center"
  let relId := getImageRelId imageId
  let drawId := drawCtr
  let w := showNum width
  let h := showNum height
  let d := toString drawId
  let xml :=
    "  <w:p>\n"
    ++ (if align != "left" then
          "    <w:pPr>\n      <w:jc w:val=\"" ++ align ++ "\"/>\n    </w:pPr>\n"
        else "")
    ++ "    <w:r>\n      <w:drawing>\n        <wp:inline distT=\"0\" distB=\"0\" distL=\"0\" distR=\"0\">\n          <wp:extent cx=\""
    ++ w ++ "\" cy=\"" ++ h
    ++ "\"/>\n          <wp:effectExtent l=\"0\" t=\"0\" r=\"0\" b=\"0\"/>\n          <wp:docPr id=\""
    ++ d ++ "\" name=\"Picture " ++ d
    ++ "\"/>\n          <wp:cNvGraphicFramePr>\n            <a:graphicFrameLocks noChangeAspect=\"1\"/>\n          </wp:cNvGraphicFramePr>\n          <a:graphic>\n            <a:graphicData uri=\"http://schemas.openxmlformats.org/drawingml/2006/picture\">\n              <pic:pic>\n                <pic:nvPicPr>\n                  <pic:cNvPr id=\""
    ++ d ++ "\" name=\"Picture " ++ d
    ++ "\"/>\n                  <pic:cNvPicPr/>\n                </pic:nvPicPr>\n                <pic:blipFill>\n                  <a:blip r:embed=\""
    ++ relId
    ++ "\"/>\n                  <a:stretch><a:fillRect/></a:stretch>\n                </pic:blipFill>\n                <pic:spPr>\n                  <a:xfrm><a:off x=\"0\" y=\"0\"/><a:ext cx=\""
    ++ w ++ "\" cy=\"" ++ h
    ++ "\"/></a:xfrm>\n                  <a:prstGeom prst=\"rect\"><a:avLst/></a:prstGeom>\n                </pic:spPr>\n              </pic:pic>\n            </a:graphicData>\n          </a:graphic>\n        </wp:inline>\n      </w:drawing>\n    </w:r>\n  </w:p>"
  (xml, drawCtr + 1, [relId])

/-- A section element reachable through the modelled builder surface: an
`Image` block (whose id was registered by `section.image(...)` before it
was pushed) or a table bridge (the anonymous `Element` wrapping a
`Table`).  Paragraph and shape blocks emit no relationship references
and are outside this model. -/
inductive SElem where
  | image (imageId : Nat) (options : ImageOptions)
  | table (t : TableState)
  deriving Repr, DecidableEq

/-- `PageSize` from `core/docxaur.ts`. -/
structure PageSize where
  width : String
  height : String
  orientation : Option String := none
  deriving Repr, DecidableEq

/-- `Margins` from `core/docxaur.ts`. -/
structure Margins where
  top : String
  right : String
  bottom : String
  left : String
  deriving Repr, DecidableEq

/-- A `Section` with its resolved options (the constructor defaults:
A4 portrait, 2.54 cm margins). -/
structure SectionState where
  elements : List SElem := []
  pageSize : PageSize := ⟨"21cm", "29.7cm", some "portrait"⟩
  margins : Margins := ⟨"2.54cm", "2.54cm", "2.54cm", "2.54cm"⟩
  deriving Repr, DecidableEq

/-- `Section.toXMLAsync` element loop: a table bridge is built (awaited)
before its element renders; every element's fragment is followed by a
newline. -/
def sectionElemsXML (env : FetchEnv) (st : DocXaurState) (els : List SElem)
    (ctr : Nat) : String × DocXaurState × Nat × List String :=
  match els with
  | [] => ("", st, ctr, [])
  | SElem.image iid opts :: rest =>
    let (x, ctr1, refs1) := imageToXML iid opts ctr
    let (xs, st2, ctr2, refs2) := sectionElemsXML env st rest ctr1
    (x ++ "\n" ++ xs, st2, ctr2, refs1 ++ refs2)
  | SElem.table t :: rest =>
    let (t1, st1, _log) := buildRows env st t
    let (x, ctr1, refs1) := tableToXMLWithSection t1 ctr
    let (xs, st2, ctr2, refs2) := sectionElemsXML env st1 rest ctr1
    (x ++ "\n" ++ xs, st2, ctr2, refs1 ++ refs2)

/-- `Section.getSectionPropertiesXML`: page size, orientation and
margins of this section. -/
def getSectionPropertiesXML (sec : SectionState) : String :=
  let widthTwips := showNum (parseNumberTwips sec.pageSize.width)
  let heightTwips := showNum (parseNumberTwips sec.pageSize.height)
  let orient := if sec.pageSize.orientation == some "landscape" then
                  "landscape"
                else "portrait"
  "  <w:sectPr>\n     <w:pgSz w:w=\"" ++ widthTwips ++ "\" w:h=\""
    ++ heightTwips ++ "\" w:orient=\"" ++ orient
    ++ "\"/>\n     <w:pgMar w:top=\""
    ++ showNum (parseNumberTwips sec.margins.top)
    ++ "\"\n              w:right=\""
    ++ showNum (parseNumberTwips sec.margins.right)
    ++ "\"\n              w:bottom=\""
    ++ showNum (parseNumberTwips sec.margins.bottom)
    ++ "\"\n              w:left=\""
    ++ showNum (parseNumberTwips sec.margins.left)
    ++ "\"\n              w:header=\"720\" w:footer=\"720\" w:gutter=\"0\"/>\n   </w:sectPr>\n "

/-- A `DocXaur` instance at `toBlob()` time: its sections, its registry
state (already holding the images registered by `section.image(...)`
calls) and its font options. -/
structure DocXaurDoc where
  sections : List SectionState := []
  state : DocXaurState := {}
  fontName : String := "Calibri"
  fontSize : Decimal := ⟨11, 0⟩

/-- The fixed prologue of `word/document.xml`. -/
def docHeaderXML : String :=
  "<?xml version=\"1.0\" encoding=\"UTF-8\" standalone=\"yes\"?>\n<w:document xmlns:w=\"http://schemas.openxmlformats.org/wordprocessingml/2006/main\"\n            xmlns:wp=\"http://schemas.openxmlformats.org/drawingml/2006/wordprocessingDrawing\"\n            xmlns:a=\"http://schemas.openxmlformats.org/drawingml/2006/main\"\n            xmlns:pic=\"http://schemas.openxmlformats.org/drawingml/2006/picture\"\n            xmlns:r=\"http://schemas.openxmlformats.org/officeDocument/2006/relationships\">\n  <w:body>\n"

/-- Render all sections in order (the loop of `generateDocumentAsync`). -/
def docSectionsXML (env : FetchEnv) (st : DocXaurState)
    (secs : List SectionState) (ctr : Nat) :
    String × DocXaurState × Nat × List String :=
  match secs with
  | [] => ("", st, ctr, [])
  | s :: rest =>
    let (x1, st1, ctr1, refs1) := sectionElemsXML env st s.elements ctr
    let (x2, st2, ctr2, refs2) := docSectionsXML env st1 rest ctr1
    (x1 ++ x2, st2, ctr2, refs1 ++ refs2)

/-- `DocXaur.generateDocumentAsync`: body prologue, every section's
elements in order, then — when at least one section exists — the page
properties of the last section, closing the body. -/
def generateDocumentAsync (env : FetchEnv) (doc : DocXaurDoc) (ctr : Nat) :
    String × DocXaurState × Nat × List String :=
  let (secXml, st1, ctr1, refs) := docSectionsXML env doc.state doc.sections ctr
  let lastPart :=
    match doc.sections.getLast? with
    | some last => getSectionPropertiesXML last
    | none => ""
  (docHeaderXML ++ secXml ++ lastPart ++ "  </w:body>\n</w:document>",
    st1, ctr1, refs)

/-- Stable ascending insertion by numeric id (JS `sort((a, b) => a[1].id
- b[1].id)` is stable). -/
def insertById (x : String × ImageMapValue) :
    List (String × ImageMapValue) → List (String × ImageMapValue)
  | [] => [x]
  | y :: ys => if x.2.id ≤ y.2.id then x :: y :: ys else y :: insertById x ys

/-- Sort the image entries ascending by id (stable). -/
def sortById : List (String × ImageMapValue) → List (String × ImageMapValue)
  | [] => []
  | x :: xs => insertById x (sortById xs)

/-- The three fixed-part relationship lines opening
`word/_rels/document.xml.rels` (`generateDocRels`). -/
def docRelsBase : String :=
  "<?xml version=\"1.0\" encoding=\"UTF-8\" standalone=\"yes\"?>\n<Relationships xmlns=\"http://schemas.openxmlformats.org/package/2006/relationships\">\n  <Relationship Id=\"rId1\" Type=\"http://schemas.openxmlformats.org/officeDocument/2006/relationships/styles\"    Target=\"styles.xml\"/>\n  <Relationship Id=\"rId2\" Type=\"http://schemas.openxmlformats.org/officeDocument/2006/relationships/fontTable\" Target=\"fontTable.xml\"/>\n  <Relationship Id=\"rId3\" Type=\"http://schemas.openxmlformats.org/officeDocument/2006/relationships/settings\"  Target=\"settings.xml\"/>\n"

/-- `DocXaur.generateDocRels`: the three fixed-part relationships, then
one image relationship per registered image in ascending id order, with
`rId(id+3)` and target `media/image<id>.<ext>`. -/
def generateDocRels (st : DocXaurState) : String :=
  docRelsBase
  ++ String.join ((sortById st.images).map (fun e =>
      "  <Relationship Id=\"rId" ++ toString (e.2.id + 3)
        ++ "\" Type=\"http://schemas.openxmlformats.org/officeDocument/2006/relationships/image\" Target=\"media/image"
        ++ toString e.2.id ++ "." ++ e.2.extension ++ "\"/>\n"))
  ++ "</Relationships>"

/-- `DocXaur.generateContentTypes` (fixed). -/
def generateContentTypes : String :=
  "<?xml version=\"1.0\" encoding=\"UTF-8\" standalone=\"yes\"?>\n<Types xmlns=\"http://schemas.openxmlformats.org/package/2006/content-types\">\n  <Default Extension=\"rels\" ContentType=\"application/vnd.openxmlformats-package.relationships+xml\"/>\n  <Default Extension=\"xml\"  ContentType=\"application/xml\"/>\n  <Default Extension=\"png\"  ContentType=\"image/png\"/>\n  <Default Extension=\"jpg\"  ContentType=\"image/jpeg\"/>\n  <Default Extension=\"jpeg\" ContentType=\"image/jpeg\"/>\n  <Default Extension=\"gif\"  ContentType=\"image/gif\"/>\n  <Default Extension=\"bmp\"  ContentType=\"image/bmp\"/>\n  <Override PartName=\"/word/document.xml\"  ContentType=\"application/vnd.openxmlformats-officedocument.wordprocessingml.document.main+xml\"/>\n  <Override PartName=\"/word/styles.xml\"    ContentType=\"application/vnd.openxmlformats-officedocument.wordprocessingml.styles+xml\"/>\n  <Override PartName=\"/word/fontTable.xml\" ContentType=\"application/vnd.openxmlformats-officedocument.wordprocessingml.fontTable+xml\"/>\n  <Override PartName=\"/word/settings.xml\"  ContentType=\"application/vnd.openxmlformats-officedocument.wordprocessingml.settings+xml\"/>\n  <Override PartName=\"/docProps/core.xml\"  ContentType=\"application/vnd.openxmlformats-package.core-properties+xml\"/>\n  <Override PartName=\"/docProps/app.xml\"   ContentType=\"application/vnd.openxmlformats-officedocument.extended-properties+xml\"/>\n</Types>"

/-- `DocXaur.generateRootRels` (fixed). -/
def generateRootRels : String :=
  "<?xml version=\"1.0\" encoding=\"UTF-8\" standalone=\"yes\"?>\n<Relationships xmlns=\"http://schemas.openxmlformats.org/package/2006/relationships\">\n  <Relationship Id=\"rId1\" Type=\"http://schemas.openxmlformats.org/officeDocument/2006/relationships/officeDocument\" Target=\"word/document.xml\"/>\n  <Relationship Id=\"rId2\" Type=\"http://schemas.openxmlformats.org/package/2006/relationships/metadata/core-properties\" Target=\"docProps/core.xml\"/>\n  <Relationship Id=\"rId3\" Type=\"http://schemas.openxmlformats.org/officeDocument/2006/relationships/extended-properties\" Target=\"docProps/app.xml\"/>\n</Relationships>"

/-- `DocXaur.generateStyles`: document defaults with the instance font
name and size (half-points). -/
def generateStyles (fontName : String) (fontSize : Decimal) : String :=
  let fs := toString (ptToHalfPoints fontSize)
  "<?xml version=\"1.0\" encoding=\"UTF-8\" standalone=\"yes\"?>\n<w:styles xmlns:w=\"http://schemas.openxmlformats.org/wordprocessingml/2006/main\">\n  <w:docDefaults>\n    <w:rPrDefault>\n      <w:rPr>\n        <w:rFonts w:ascii=\""
  ++ fontName ++ "\" w:hAnsi=\"" ++ fontName ++ "\" w:cs=\"" ++ fontName
  ++ "\"/>\n        <w:sz   w:val=\"" ++ fs ++ "\"/>\n        <w:szCs w:val=\""
  ++ fs
  ++ "\"/>\n      </w:rPr>\n    </w:rPrDefault>\n    <w:pPrDefault>\n      <w:pPr>\n        <w:spacing w:after=\"0\" w:line=\"240\" w:lineRule=\"auto\"/>\n      </w:pPr>\n    </w:pPrDefault>\n  </w:docDefaults>\n</w:styles>"

/-- `DocXaur.generateFontTable` (fixed). -/
def generateFontTable : String :=
  "<?xml version=\"1.0\" encoding=\"UTF-8\" standalone=\"yes\"?>\n<w:fonts xmlns:w=\"http://schemas.openxmlformats.org/wordprocessingml/2006/main\">\n  <w:font w:name=\"Arial\"/>\n  <w:font w:name=\"Times New Roman\"/>\n  <w:font w:name=\"Calibri\"/>\n</w:fonts>"

/-- `DocXaur.generateSettings` (fixed). -/
def generateSettings : String :=
  "<?xml version=\"1.0\" encoding=\"UTF-8\" standalone=\"yes\"?>\n<w:settings xmlns:w=\"http://schemas.openxmlformats.org/wordprocessingml/2006/main\">\n  <w:zoom w:percent=\"100\"/>\n</w:settings>"

/-- `DocXaur.createDocxZip`: the package as an ordered list of entries.
The body is composed first (registering all table images as a side
effect), the relationship manifest is reconciled afterwards against the
now-complete registry, then all parts and media payloads are written.
Returns the entries, the final registry state, the advanced drawing
counter, and the relationship ids referenced by embed runs in the body. -/
def createDocxZip (env : FetchEnv) (doc : DocXaurDoc) (ctr : Nat) :
    List (String × String) × DocXaurState × Nat × List String :=
  let (docXml, st1, ctr1, refs) := generateDocumentAsync env doc ctr
  let rawDocRels := generateDocRels st1
  let imageRels := st1.images.map (fun e =>
    ImageRelationship.mk ("rId" ++ toString (e.2.id + 3))
      ("media/image" ++ toString e.2.id ++ "." ++ e.2.extension))
  let fixedDocRels := ensureImageRelationships (some rawDocRels) imageRels
  let media := st1.images.map (fun e =>
    ("word/media/image" ++ toString e.2.id ++ "." ++ e.2.extension, e.2.data))
  ([("[Content_Types].xml", generateContentTypes),
    ("_rels/.rels", generateRootRels),
    ("word/_rels/document.xml.rels", fixedDocRels),
    ("word/document.xml", docXml),
    ("word/styles.xml", generateStyles doc.fontName doc.fontSize),
    ("word/fontTable.xml", generateFontTable),
    ("word/settings.xml", generateSettings)] ++ media,
   st1, ctr1, refs)

/-- The relationship ids listed by a manifest string (every id captured
by the scanner pattern). -/
def manifestIds (m : String) : List (List Char) := scanIds m.data

/-- Number of positions at which `pat` occurs in `s`. -/
def countSub : List Char → List Char → Nat
  | [], _ => 0
  | s@(_ :: xs), pat => (if pat.isPrefixOf s then 1 else 0) + countSub xs pat

/-! ## Concrete instances used by the analyses -/

/-- A constant fetch oracle (every locator resolves to a fixed payload
and a `png` extension). -/
def constFetchEnv : FetchEnv := ⟨fun _ => "AAAA", fun _ => "png"⟩

/-- A two-column half/half table shell. -/
def twoColTable : TableState :=
  mkTable { columns := [{ width := "50%" }, { width := "50%" }] }

/-- A document whose single table embeds the same unseen locator `"u"`
in two different cells of one row — the check-then-fetch dedup race
input. -/
def dupLocatorDoc : DocXaurDoc :=
  { sections := [{ elements := [SElem.table
      { twoColTable with rowDefs := [⟨[
          RowSegment.dataCell { image := some ⟨"u", none, none⟩ },
          RowSegment.dataCell { image := some ⟨"u", none, none⟩ }], none⟩] }] }] }

/-- A document with two element-free sections carrying different page
configurations. -/
def twoSectionDoc : DocXaurDoc :=
  { sections := [{ pageSize := ⟨"21cm", "29.7cm", some "portrait"⟩ },
                 { pageSize := ⟨"10cm", "10cm", some "landscape"⟩ }] }

/-- A document holding one registered image element (as
`section.image("u")` leaves it: the locator registered with id 1, the
element holding that id). -/
def oneImageDoc : DocXaurDoc :=
  { sections := [{ elements := [SElem.image 1 {}] }],
    state := { images := [("u", ⟨"AAAA", "png", 1⟩)], imageCounter := 2 } }

/-- A row segment that embeds no image. -/
def cellSegHasNoImage : RowSegment → Bool
  | .dataCell d => d.image.isNone
  | _ => true

/-- A table none of whose declared or built cells can render an inline
drawing (no recorded cell embeds an image, and no built cell holds both
image data and a resolved image id). -/
def tableHasNoImages (t : TableState) : Bool :=
  t.rowDefs.all (fun rd => rd.cells.all cellSegHasNoImage) &&
    t.rows.all (fun r => r.cells.all (fun c => !(c.1.image.isSome && c.2.isSome)))

/-- A section element that can render no inline drawing. -/
def elemHasNoImages : SElem → Bool
  | .image _ _ => false
  | .table t => tableHasNoImages t

/-- A document that can render no inline drawing (no image elements, no
image-bearing table cells). -/
def docHasNoImages (doc : DocXaurDoc) : Bool :=
  doc.sections.all (fun s => s.elements.all elemHasNoImages)

end DocXaur
/-!
# Theorems

Helper lemmas first, then one theorem per claim (with witnesses and
counterexamples where applicable).
-/

namespace DocXaur

theorem takeWhile_all_append (p : Char → Bool) (l : List Char) (x : Char)
    (r : List Char) (hl : ∀ c ∈ l, p c) (hx : p x = false) :
    (l ++ x :: r).takeWhile p = l ∧ (l ++ x :: r).dropWhile p = x :: r := by
  induction l with
  | nil => simp [List.takeWhile_cons, List.dropWhile_cons, hx]
  | cons a as ih =>
    have ha : p a := hl a (by simp)
    have h2 := ih (fun c hc => hl c (by simp [hc]))
    simp [List.takeWhile_cons, List.dropWhile_cons, ha, h2.1, h2.2]

theorem isDigit_beq_false {c d : Char} (h : c.isDigit = true)
    (hd : d.isDigit = false) : (c == d) = false := by
  cases hb : c == d with
  | false => rfl
  | true =>
    have := eq_of_beq hb
    subst this
    rw [h] at hd
    exact absurd hd (by simp)

theorem replaceAllChar_append (a b : List Char) (c : Char) (rep : List Char) :
    replaceAllChar (a ++ b) c rep =
      replaceAllChar a c rep ++ replaceAllChar b c rep := by
  induction a with
  | nil => rfl
  | cons x xs ih => simp [replaceAllChar, ih, List.append_assoc]

theorem escapeXMLList_append (a b : List Char) :
    escapeXMLList (a ++ b) = escapeXMLList a ++ escapeXMLList b := by
  simp [escapeXMLList, replaceAllChar_append]

theorem escapeXMLList_single (c : Char) :
    escapeXMLList [c] = specEscapeChar c := by
  by_cases h1 : c = '&'
  · subst h1; decide
  by_cases h2 : c = '<'
  · subst h2; decide
  by_cases h3 : c = '>'
  · subst h3; decide
  by_cases h4 : c = '"'
  · subst h4; decide
  by_cases h5 : c = apos
  · subst h5; decide
  simp [escapeXMLList, replaceAllChar, specEscapeChar, h1, h2, h3, h4, h5]

theorem escapeXMLList_eq_flatten (s : List Char) :
    escapeXMLList s = (s.map specEscapeChar).flatten := by
  induction s with
  | nil => rfl
  | cons c cs ih =>
    have h : escapeXMLList (c :: cs) = escapeXMLList [c] ++ escapeXMLList cs := by
      rw [← escapeXMLList_append]; rfl
    rw [h, escapeXMLList_single, ih]
    simp

theorem specEscapeChar_safe (c : Char) :
    ∀ x ∈ specEscapeChar c, x ≠ '<' ∧ x ≠ '>' ∧ x ≠ '"' ∧ x ≠ apos := by
  by_cases h1 : c = '&'
  · subst h1; decide
  by_cases h2 : c = '<'
  · subst h2; decide
  by_cases h3 : c = '>'
  · subst h3; decide
  by_cases h4 : c = '"'
  · subst h4; decide
  by_cases h5 : c = apos
  · subst h5; decide
  intro x hx
  simp [specEscapeChar, h1, h2, h3, h4, h5] at hx
  subst hx
  exact ⟨h2, h3, h4, h5⟩
theorem jsParseInt_digits_append (ds : List Char) (x : Char) (r : List Char)
    (h1 : ds ≠ []) (h2 : ∀ c ∈ ds, c.isDigit) (hx : x.isDigit = false) :
    jsParseInt ⟨ds ++ x :: r⟩ = some ((digitsVal ds : Int)) := by
  obtain ⟨c, ds', rfl⟩ : ∃ c ds', ds = c :: ds' := by
    cases ds with
    | nil => exact absurd rfl h1
    | cons c ds' => exact ⟨c, ds', rfl⟩
  have hc : c.isDigit := h2 c (by simp)
  have htake := takeWhile_all_append Char.isDigit (c :: ds') x r h2 hx
  simp only [jsParseInt]
  split
  · next heq =>
    rw [List.cons_append] at heq
    injection heq with hc1 _
    rw [hc1] at hc
    exact absurd hc (by decide)
  · next heq =>
    rw [List.cons_append] at heq
    injection heq with hc1 _
    rw [hc1] at hc
    exact absurd hc (by decide)
  · rw [htake.1]
    simp
/-- C5: a width string ending in a percent sign resolves to a
proportional (`pct`) value of `percentValue * 50` (out of the
5000-unit whole), so `"50%"` resolves to `2500`; every other width
string resolves through the dimension converter to an absolute (`dxa`)
value, with `"1cm"` resolving to 567 twips. -/
theorem claim_C5_width_resolution (ds : List Char) (w : String)
    (h1 : ds ≠ []) (h2 : ∀ c ∈ ds, c.isDigit) (h3 : jsEndsWithPercent w = false) :
    parseTableCellWidth ⟨ds ++ ['%']⟩ = ⟨some ((digitsVal ds : Int) * 50), "pct"⟩ ∧
    parseTableCellWidth w = ⟨parseNumberTwips w, "dxa"⟩ ∧
    parseTableCellWidth "50%" = ⟨some 2500, "pct"⟩ ∧
    parseTableCellWidth "1cm" = ⟨some 567, "dxa"⟩ := by
  refine ⟨?_, ?_, by decide, by decide⟩
  · have hends : jsEndsWithPercent ⟨ds ++ ['%']⟩ = true := by
      simp [jsEndsWithPercent]
    have hparse := jsParseInt_digits_append ds '%' [] h1 h2 (by decide)
    simp [parseTableCellWidth, hends, hparse]
  · simp [parseTableCellWidth, h3]

/-- C5 witness: instantiated at `"50%"` (digits `50`) and `"1cm"`. -/
theorem claim_C5_width_resolution_witness :
    ("50".data ≠ [] ∧ (∀ c ∈ "50".data, c.isDigit) ∧
      jsEndsWithPercent "1cm" = false) ∧
    (parseTableCellWidth ⟨"50".data ++ ['%']⟩ =
        ⟨some ((digitsVal "50".data : Int) * 50), "pct"⟩ ∧
      parseTableCellWidth "1cm" = ⟨parseNumberTwips "1cm", "dxa"⟩ ∧
      parseTableCellWidth "50%" = ⟨some 2500, "pct"⟩ ∧
      parseTableCellWidth "1cm" = ⟨some 567, "dxa"⟩) :=
  ⟨⟨by decide, by decide, by decide⟩,
    claim_C5_width_resolution "50".data "1cm" (by decide) (by decide) (by decide)⟩

theorem exists_pivot_decomp (p g v a b c d e : String) :
    ∃ pre post, (((((p ++ g ++ v ++ a) ++ b) ++ c) ++ d) ++ e) =
      pre ++ (g ++ (v ++ post)) :=
  ⟨p, a ++ (b ++ (c ++ (d ++ e))), by simp [String.append_assoc]⟩

/-- C6: every rendered table cell's property block contains exactly the
horizontal-span and vertical-merge directives prescribed by its merge
fields: `colspan > 1` yields `w:gridSpan` sized to that count;
`rowspan > 1` yields `w:vMerge w:val="restart"`; `rowspan = 0` yields a
bare `w:vMerge` with no size information; an absent or `1` value yields
the empty fragment. -/
theorem claim_C6_merge_directives (data : TableCellData)
    (imageId : Option Nat) (colIndex : Nat) (tableOptions : TableOptions)
    (ctr : Nat) :
    (∃ pre post, (tableCellToXML data imageId colIndex tableOptions ctr).1 =
        pre ++ (gridSpanXML data.colspan ++ (vMergeXML data.rowspan ++ post))) ∧
    (∀ n : Int, 1 < n → gridSpanXML (some n) =
        "        <w:gridSpan w:val=\"" ++ toString n ++ "\"/>\n") ∧
    (∀ n : Int, 1 < n → vMergeXML (some n) =
        "        <w:vMerge w:val=\"restart\"/>\n") ∧
    vMergeXML (some 0) = "        <w:vMerge/>\n" ∧
    gridSpanXML none = "" ∧ gridSpanXML (some 1) = "" ∧
    vMergeXML none = "" ∧ vMergeXML (some 1) = "" := by
  refine ⟨?_, ?_, ?_, by decide, by decide, by decide, by decide, by decide⟩
  · rcases hi : data.image with _ | img <;> rcases hid : imageId with _ | iid <;>
      · simp only [tableCellToXML, hi, hid]
        apply exists_pivot_decomp
  · intro n hn
    simp [gridSpanXML, hn]
  · intro n hn
    have : ¬ (n = 0) := by omega
    simp [vMergeXML, hn]

/-- C6 witness: instantiated at a `colspan 2` / `rowspan 3` cell in the
sample two-column table. -/
theorem claim_C6_merge_directives_witness :
    (∃ pre post,
      (tableCellToXML { colspan := some 2, rowspan := some 3 } none 0
          twoColTable.options 1).1 =
        pre ++ (gridSpanXML (some 2) ++ (vMergeXML (some 3) ++ post))) ∧
    (∀ n : Int, 1 < n → gridSpanXML (some n) =
        "        <w:gridSpan w:val=\"" ++ toString n ++ "\"/>\n") ∧
    (∀ n : Int, 1 < n → vMergeXML (some n) =
        "        <w:vMerge w:val=\"restart\"/>\n") ∧
    vMergeXML (some 0) = "        <w:vMerge/>\n" ∧
    gridSpanXML none = "" ∧ gridSpanXML (some 1) = "" ∧
    vMergeXML none = "" ∧ vMergeXML (some 1) = "" :=
  claim_C6_merge_directives { colspan := some 2, rowspan := some 3 } none 0
    twoColTable.options 1

/-- C10: a non-shape text run renders as `<w:r>` whose `<w:t>` content
is exactly the XML-escaped input text; the replace chain (ampersand
first) coincides with the single-pass per-character entity substitution
of the spec, so the escaped content contains no markup-breaking
character. -/
theorem claim_C10_escaped_runs (r : TableCellRun) (h : r.isShape = false) :
    r.toXML = "        <w:r>\n" ++ runRPrXML r.style
      ++ "          <w:t xml:space=\"preserve\">" ++ escapeXML r.text
      ++ "</w:t>\n" ++ "        </w:r>\n" ∧
    (escapeXML r.text).data = (r.text.data.map specEscapeChar).flatten ∧
    (∀ x ∈ (escapeXML r.text).data,
      x ≠ '<' ∧ x ≠ '>' ∧ x ≠ '"' ∧ x ≠ apos) := by
  refine ⟨?_, ?_, ?_⟩
  · simp [TableCellRun.toXML, h]
  · exact escapeXMLList_eq_flatten r.text.data
  · intro x hx
    rw [show (escapeXML r.text).data = escapeXMLList r.text.data from rfl,
      escapeXMLList_eq_flatten] at hx
    rcases List.mem_flatten.mp hx with ⟨l, hl, hxl⟩
    rcases List.mem_map.mp hl with ⟨c, _, rfl⟩
    exact specEscapeChar_safe c x hxl

/-- C10 witness: instantiated at an unstyled run containing all five
special characters. -/
theorem claim_C10_escaped_runs_witness :
    ((TableCellRun.mk false "a<b>&\"q" none).isShape = false) ∧
    ((TableCellRun.mk false "a<b>&\"q" none).toXML = "        <w:r>\n"
        ++ runRPrXML none ++ "          <w:t xml:space=\"preserve\">"
        ++ escapeXML "a<b>&\"q" ++ "</w:t>\n" ++ "        </w:r>\n" ∧
      (escapeXML "a<b>&\"q").data =
        ("a<b>&\"q".data.map specEscapeChar).flatten ∧
      (∀ x ∈ (escapeXML "a<b>&\"q").data,
        x ≠ '<' ∧ x ≠ '>' ∧ x ≠ '"' ∧ x ≠ apos)) :=
  ⟨rfl, claim_C10_escaped_runs (TableCellRun.mk false "a<b>&\"q" none) rfl⟩
theorem lookupImage_eq_none_iff (st : DocXaurState) (u : String) :
    lookupImage st u = none ↔ ∀ e ∈ st.images, e.1 ≠ u := by
  simp [lookupImage, List.find?_eq_none]

theorem setEntry_fresh (m : List (String × ImageMapValue)) (u : String)
    (v : ImageMapValue) (h : ∀ e ∈ m, e.1 ≠ u) :
    setEntry m u v = m ++ [(u, v)] := by
  induction m with
  | nil => rfl
  | cons kv rest ih =>
    obtain ⟨k, w⟩ := kv
    have hk : k ≠ u := h (k, w) (by simp)
    simp only [setEntry, List.cons_append]
    rw [if_neg (by simpa using hk), ih (fun e he => h e (by simp [he]))]

theorem lookupImage_append_some (m ext : List (String × ImageMapValue))
    (c c' : Nat) (u : String) (w : ImageMapValue)
    (h : lookupImage ⟨m, c⟩ u = some w) :
    lookupImage ⟨m ++ ext, c'⟩ u = some w := by
  unfold lookupImage at *
  rw [List.find?_append]
  cases hf : List.find? (fun e => e.1 == u) m with
  | none => rw [hf] at h; simp at h
  | some e => rw [hf] at h; simp [Option.or, hf, h] at *

theorem lookup_inj (st : DocXaurState)
    (hN : (st.images.map (fun e => e.2.id)).Nodup) (u1 u2 : String)
    (w1 w2 : ImageMapValue) (h1 : lookupImage st u1 = some w1)
    (h2 : lookupImage st u2 = some w2) (hne : u1 ≠ u2) : w1.id ≠ w2.id := by
  unfold lookupImage at h1 h2
  cases hf1 : List.find? (fun e => e.1 == u1) st.images with
  | none => rw [hf1] at h1; simp at h1
  | some e1 =>
    cases hf2 : List.find? (fun e => e.1 == u2) st.images with
    | none => rw [hf2] at h2; simp at h2
    | some e2 =>
      rw [hf1] at h1; rw [hf2] at h2
      simp at h1 h2
      have he1m := List.mem_of_find?_eq_some hf1
      have he2m := List.mem_of_find?_eq_some hf2
      have he1k : e1.1 = u1 := by simpa using List.find?_some hf1
      have he2k : e2.1 = u2 := by simpa using List.find?_some hf2
      intro hid
      have : e1 = e2 := by
        refine List.inj_on_of_nodup_map hN he1m he2m ?_
        simp [h1, h2, hid]
      exact hne (by rw [← he1k, ← he2k, this])

theorem registerImage_spec (env : FetchEnv) (st : DocXaurState) (u : String)
    (hIds : st.images.map (fun e => e.2.id) =
      List.range' 1 (st.imageCounter - 1))
    (hC : 1 ≤ st.imageCounter)
    (hKeys : (st.images.map (fun e => e.1)).Nodup) :
    (registerImage env st u).2.1.images.map (fun e => e.2.id) =
      List.range' 1 ((registerImage env st u).2.1.imageCounter - 1) ∧
    1 ≤ (registerImage env st u).2.1.imageCounter ∧
    ((registerImage env st u).2.1.images.map (fun e => e.1)).Nodup ∧
    (lookupImage (registerImage env st u).2.1 u).map (fun v => v.id) =
      some (registerImage env st u).1 ∧
    (∀ u' w, lookupImage st u' = some w →
      lookupImage (registerImage env st u).2.1 u' = some w) ∧
    (lookupImage st u = none → (registerImage env st u).2.2 = [u]) ∧
    (∀ w, lookupImage st u = some w →
      (registerImage env st u).2.2 = [] ∧ (registerImage env st u).2.1 = st) := by
  cases hl : lookupImage st u with
  | some v =>
    simp only [registerImage, hl]
    refine ⟨hIds, hC, hKeys, ?_, ?_, ?_, ?_⟩
    · simp [hl]
    · intro u' w h; exact h
    · intro h; exact absurd h (by simp)
    · intro w _; simp
  | none =>
    have hfresh : ∀ e ∈ st.images, e.1 ≠ u := (lookupImage_eq_none_iff st u).mp hl
    have hset := setEntry_fresh st.images u
      ⟨env.data u, env.extension u, st.imageCounter⟩ hfresh
    simp only [registerImage, hl, hset]
    obtain ⟨k, hk⟩ : ∃ k, st.imageCounter = k + 1 :=
      ⟨st.imageCounter - 1, by omega⟩
    refine ⟨?_, by omega, ?_, ?_, ?_, by simp, ?_⟩
    · simp only [List.map_append, hIds, hk]
      rw [show k + 1 + 1 - 1 = k + 1 from rfl, List.range'_1_concat]
      have : 1 + k = k + 1 := by omega
      simp [hk, this]
    · simp only [List.map_append]
      rw [List.nodup_append]
      refine ⟨hKeys, by simp, ?_⟩
      intro x hx
      simp only [List.mem_map] at hx
      obtain ⟨e, he, rfl⟩ := hx
      simp
      exact fun hxu => (hfresh e he) hxu
    · unfold lookupImage
      rw [List.find?_append]
      have : List.find? (fun e => e.1 == u) st.images = none := by
        rw [List.find?_eq_none]
        intro e he
        simpa using hfresh e he
      simp [this, Option.or]
    · intro u' w h
      exact lookupImage_append_some st.images _ st.imageCounter _ u' w h
    · intro w h
      exact absurd h (by simp)
theorem runRegisterSeq_spec (env : FetchEnv) (urls : List String) :
    ∀ st : DocXaurState,
    st.images.map (fun e => e.2.id) = List.range' 1 (st.imageCounter - 1) →
    1 ≤ st.imageCounter →
    (st.images.map (fun e => e.1)).Nodup →
    (runRegisterSeq env st urls).2.1.images.map (fun e => e.2.id) =
      List.range' 1 ((runRegisterSeq env st urls).2.1.imageCounter - 1) ∧
    1 ≤ (runRegisterSeq env st urls).2.1.imageCounter ∧
    ((runRegisterSeq env st urls).2.1.images.map (fun e => e.1)).Nodup ∧
    (runRegisterSeq env st urls).1.length = urls.length ∧
    (∀ u' w, lookupImage st u' = some w →
      lookupImage (runRegisterSeq env st urls).2.1 u' = some w) ∧
    (∀ p ∈ urls.zip (runRegisterSeq env st urls).1,
      (lookupImage (runRegisterSeq env st urls).2.1 p.1).map (fun v => v.id) =
        some p.2) ∧
    (∀ v ∈ (runRegisterSeq env st urls).2.2, lookupImage st v = none) ∧
    (runRegisterSeq env st urls).2.2.Nodup := by
  induction urls with
  | nil =>
    intro st h1 h2 h3
    exact ⟨h1, h2, h3, rfl, fun _ _ h => h, by simp,
      by simp [runRegisterSeq], by simp [runRegisterSeq]⟩
  | cons u rest ih =>
    intro st h1 h2 h3
    have spec1 := registerImage_spec env st u h1 h2 h3
    obtain ⟨s1, s2, s3, s4, s5, s6, s7⟩ := spec1
    have ihr := ih (registerImage env st u).2.1 s1 s2 s3
    obtain ⟨i1, i2, i3, i4, i5, i6, i7, i8⟩ := ihr
    simp only [runRegisterSeq]
    refine ⟨i1, i2, i3, by simp [i4], ?_, ?_, ?_, ?_⟩
    · intro u' w h
      exact i5 u' w (s5 u' w h)
    · intro p hp
      simp only [List.zip_cons_cons, List.mem_cons] at hp
      rcases hp with rfl | hp
      · obtain ⟨w, hw, hwid⟩ : ∃ w,
          lookupImage (registerImage env st u).2.1 u = some w ∧
            w.id = (registerImage env st u).1 := by
          cases hlw : lookupImage (registerImage env st u).2.1 u with
          | none => rw [hlw] at s4; simp at s4
          | some w => rw [hlw] at s4; simp at s4; exact ⟨w, rfl, s4⟩
        rw [i5 u w hw]
        simp [hwid]
      · exact i6 p hp
    · intro v hv
      simp only [List.mem_append] at hv
      rcases hv with hv | hv
      · cases hl : lookupImage st u with
        | none =>
          rw [s6 hl] at hv
          simp at hv
          rwa [hv]
        | some w =>
          rw [(s7 w hl).1] at hv
          simp at hv
      · have := i7 v hv
        cases hl2 : lookupImage st v with
        | none => rfl
        | some w => rw [s5 v w hl2] at this; simp at this
    · rw [List.nodup_append]
      refine ⟨?_, i8, ?_⟩
      · cases hl : lookupImage st u with
        | none => rw [s6 hl]; simp
        | some w => rw [(s7 w hl).1]; simp
      · intro v hv
        cases hl : lookupImage st u with
        | none =>
          rw [s6 hl] at hv
          simp at hv
          subst hv
          intro hmem
          have := i7 v hmem
          cases hlw : lookupImage (registerImage env st v).2.1 v with
          | none => rw [hlw] at s4; simp at s4
          | some w => rw [hlw] at this; simp at this
        | some w =>
          rw [(s7 w hl).1] at hv
          simp at hv
/-- C2: over any sequence of sequential `registerImage` calls on one
fresh DocXaur instance, ids are an injective image of the locators
(equal locators get equal ids, distinct locators distinct ids — a
repeated locator returns its first-assigned id), no locator is fetched
twice, and the registry never stores two records for one locator. -/
theorem claim_C2_registration_idempotence (env : FetchEnv)
    (urls : List String) (i j : Nat) (hi : i < urls.length)
    (hj : j < urls.length) :
    (runRegisterSeq env ⟨[], 1⟩ urls).1.length = urls.length ∧
    (urls.getD i "" = urls.getD j "" →
      (runRegisterSeq env ⟨[], 1⟩ urls).1.getD i 0 =
        (runRegisterSeq env ⟨[], 1⟩ urls).1.getD j 0) ∧
    (urls.getD i "" ≠ urls.getD j "" →
      (runRegisterSeq env ⟨[], 1⟩ urls).1.getD i 0 ≠
        (runRegisterSeq env ⟨[], 1⟩ urls).1.getD j 0) ∧
    (runRegisterSeq env ⟨[], 1⟩ urls).2.2.Nodup ∧
    ((runRegisterSeq env ⟨[], 1⟩ urls).2.1.images.map (fun e => e.1)).Nodup := by
  have spec := runRegisterSeq_spec env urls ⟨[], 1⟩ (by simp) (by simp) (by simp)
  obtain ⟨s1, _, s3, s4, _, s6, _, s8⟩ := spec
  have hlen : (runRegisterSeq env ⟨[], 1⟩ urls).1.length = urls.length := s4
  have hi2 : i < (runRegisterSeq env ⟨[], 1⟩ urls).1.length := by omega
  have hj2 : j < (runRegisterSeq env ⟨[], 1⟩ urls).1.length := by omega
  have hzlen : i < (urls.zip (runRegisterSeq env ⟨[], 1⟩ urls).1).length ∧
      j < (urls.zip (runRegisterSeq env ⟨[], 1⟩ urls).1).length := by
    constructor <;> simp [List.length_zip] <;> omega
  have hpi := s6 (urls.zip (runRegisterSeq env ⟨[], 1⟩ urls).1)[i]
    (List.getElem_mem hzlen.1)
  have hpj := s6 (urls.zip (runRegisterSeq env ⟨[], 1⟩ urls).1)[j]
    (List.getElem_mem hzlen.2)
  rw [List.getElem_zip] at hpi hpj
  have hgu_i : urls.getD i "" = urls[i] := List.getD_eq_getElem urls "" hi
  have hgu_j : urls.getD j "" = urls[j] := List.getD_eq_getElem urls "" hj
  have hgd_i : (runRegisterSeq env ⟨[], 1⟩ urls).1.getD i 0 =
      (runRegisterSeq env ⟨[], 1⟩ urls).1[i] := List.getD_eq_getElem _ 0 hi2
  have hgd_j : (runRegisterSeq env ⟨[], 1⟩ urls).1.getD j 0 =
      (runRegisterSeq env ⟨[], 1⟩ urls).1[j] := List.getD_eq_getElem _ 0 hj2
  have hNid : ((runRegisterSeq env ⟨[], 1⟩ urls).2.1.images.map
      (fun e => e.2.id)).Nodup := by
    rw [s1]
    exact ((List.pairwise_lt_range' _ _ 1 (by omega)).imp
      (fun h => Nat.ne_of_lt h))
  refine ⟨s4, ?_, ?_, s8, s3⟩
  · intro hequ
    rw [hgu_i, hgu_j] at hequ
    rw [hgd_i, hgd_j]
    rw [hequ] at hpi
    rw [hpi] at hpj
    exact Option.some.inj hpj
  · intro hneu heqid
    rw [hgu_i, hgu_j] at hneu
    rw [hgd_i, hgd_j] at heqid
    obtain ⟨wi, hwi, hwid⟩ : ∃ w, lookupImage (runRegisterSeq env ⟨[], 1⟩
        urls).2.1 urls[i] = some w ∧
        w.id = (runRegisterSeq env ⟨[], 1⟩ urls).1[i] := by
      cases hlw : lookupImage _ urls[i] with
      | none => rw [hlw] at hpi; simp at hpi
      | some w => rw [hlw] at hpi; simp at hpi; exact ⟨w, rfl, hpi⟩
    obtain ⟨wj, hwj, hwjd⟩ : ∃ w, lookupImage (runRegisterSeq env ⟨[], 1⟩
        urls).2.1 urls[j] = some w ∧
        w.id = (runRegisterSeq env ⟨[], 1⟩ urls).1[j] := by
      cases hlw : lookupImage _ urls[j] with
      | none => rw [hlw] at hpj; simp at hpj
      | some w => rw [hlw] at hpj; simp at hpj; exact ⟨w, rfl, hpj⟩
    exact lookup_inj _ hNid urls[i] urls[j] wi wj hwi hwj hneu
      (by rw [hwid, hwjd, heqid])

/-- C2 witness: the sequence `["a", "b", "a"]` at positions 0 and 2
(repeated locator) — the hypotheses and all five conjuncts evaluate
concretely. -/
theorem claim_C2_registration_idempotence_witness :
    ((0 : Nat) < (["a", "b", "a"] : List String).length ∧
      (2 : Nat) < (["a", "b", "a"] : List String).length) ∧
    ((runRegisterSeq constFetchEnv ⟨[], 1⟩ ["a", "b", "a"]).1.length =
        (["a", "b", "a"] : List String).length ∧
      ((["a", "b", "a"] : List String).getD 0 "" =
          (["a", "b", "a"] : List String).getD 2 "" →
        (runRegisterSeq constFetchEnv ⟨[], 1⟩ ["a", "b", "a"]).1.getD 0 0 =
          (runRegisterSeq constFetchEnv ⟨[], 1⟩ ["a", "b", "a"]).1.getD 2 0) ∧
      ((["a", "b", "a"] : List String).getD 0 "" ≠
          (["a", "b", "a"] : List String).getD 2 "" →
        (runRegisterSeq constFetchEnv ⟨[], 1⟩ ["a", "b", "a"]).1.getD 0 0 ≠
          (runRegisterSeq constFetchEnv ⟨[], 1⟩ ["a", "b", "a"]).1.getD 2 0) ∧
      (runRegisterSeq constFetchEnv ⟨[], 1⟩ ["a", "b", "a"]).2.2.Nodup ∧
      ((runRegisterSeq constFetchEnv ⟨[], 1⟩ ["a", "b", "a"]).2.1.images.map
        (fun e => e.1)).Nodup) :=
  ⟨⟨by decide, by decide⟩,
    claim_C2_registration_idempotence constFetchEnv ["a", "b", "a"] 0 2
      (by decide) (by decide)⟩
theorem insertById_sorted (x : String × ImageMapValue)
    (l : List (String × ImageMapValue))
    (h : ∀ y ∈ l, x.2.id ≤ y.2.id) : insertById x l = x :: l := by
  cases l with
  | nil => rfl
  | cons y ys => simp [insertById, h y (by simp)]

theorem sortById_sorted (l : List (String × ImageMapValue))
    (h : List.Pairwise (fun a b => a.2.id ≤ b.2.id) l) : sortById l = l := by
  induction l with
  | nil => rfl
  | cons x xs ih =>
    rw [List.pairwise_cons] at h
    simp only [sortById]
    rw [ih h.2, insertById_sorted x xs h.1]

/-- C3: on any fresh-instance registration sequence the registry's
numeric ids are exactly `1, 2, …, n` in registration order (unique,
strictly increasing, starting at 1), the body-side relationship id of
image `id` is the string `rId(id+3)` (rId1–rId3 being the reserved
fixed-part relationships), and the manifest's image entries carry the
relationship numbers `4, …, n+3` in id order. -/
theorem claim_C3_id_and_relid_allocation (env : FetchEnv)
    (urls : List String) :
    (runRegisterSeq env ⟨[], 1⟩ urls).2.1.images.map (fun e => e.2.id) =
      List.range' 1 (runRegisterSeq env ⟨[], 1⟩ urls).2.1.images.length ∧
    ((runRegisterSeq env ⟨[], 1⟩ urls).2.1.images.map
      (fun e => e.2.id)).Nodup ∧
    List.Chain' (· < ·) ((runRegisterSeq env ⟨[], 1⟩ urls).2.1.images.map
      (fun e => e.2.id)) ∧
    (∀ imageId : Nat, getImageRelId imageId = "rId" ++ toString (imageId + 3)) ∧
    (sortById (runRegisterSeq env ⟨[], 1⟩ urls).2.1.images).map
      (fun e => e.2.id + 3) =
      List.range' 4 (runRegisterSeq env ⟨[], 1⟩ urls).2.1.images.length := by
  have spec := runRegisterSeq_spec env urls ⟨[], 1⟩ (by simp) (by simp) (by simp)
  obtain ⟨s1, s2, _⟩ := spec
  have hlen : (runRegisterSeq env ⟨[], 1⟩ urls).2.1.images.length =
      (runRegisterSeq env ⟨[], 1⟩ urls).2.1.imageCounter - 1 := by
    have := congrArg List.length s1
    simpa using this
  have hrange : (runRegisterSeq env ⟨[], 1⟩ urls).2.1.images.map
      (fun e => e.2.id) =
      List.range' 1 (runRegisterSeq env ⟨[], 1⟩ urls).2.1.images.length := by
    rw [hlen]; exact s1
  have hpw : List.Pairwise (fun a b => a.2.id < b.2.id)
      (runRegisterSeq env ⟨[], 1⟩ urls).2.1.images := by
    have h1 : ((runRegisterSeq env ⟨[], 1⟩ urls).2.1.images.map
        (fun e => e.2.id)).Pairwise (· < ·) := by
      rw [hrange]; exact List.pairwise_lt_range' _ _ 1 (by omega)
    exact (List.pairwise_map).mp h1
  have hsort : sortById (runRegisterSeq env ⟨[], 1⟩ urls).2.1.images =
      (runRegisterSeq env ⟨[], 1⟩ urls).2.1.images :=
    sortById_sorted _ (hpw.imp (fun h => Nat.le_of_lt h))
  refine ⟨hrange, ?_, ?_, fun _ => rfl, ?_⟩
  · rw [hrange]
    exact ((List.pairwise_lt_range' _ _ 1 (by omega)).imp
      (fun h => Nat.ne_of_lt h))
  · rw [hrange]
    exact (List.pairwise_lt_range' _ _ 1 (by omega)).chain'
  · rw [hsort]
    have hcomp : ((runRegisterSeq env ⟨[], 1⟩ urls).2.1.images.map
        (fun e => e.2.id + 3)) =
        ((runRegisterSeq env ⟨[], 1⟩ urls).2.1.images.map
          (fun e => e.2.id)).map (fun n => 3 + n) := by
      rw [List.map_map]
      apply List.map_congr_left
      intro e _
      simp [Nat.add_comm]
    rw [hcomp, hrange, List.map_add_range']

/-- C3 witness: instantiated at the two-locator sequence `["a", "b"]`. -/
theorem claim_C3_id_and_relid_allocation_witness :
    (runRegisterSeq constFetchEnv ⟨[], 1⟩ ["a", "b"]).2.1.images.map
        (fun e => e.2.id) =
      List.range' 1 (runRegisterSeq constFetchEnv ⟨[], 1⟩
        ["a", "b"]).2.1.images.length ∧
    ((runRegisterSeq constFetchEnv ⟨[], 1⟩ ["a", "b"]).2.1.images.map
      (fun e => e.2.id)).Nodup ∧
    List.Chain' (· < ·) ((runRegisterSeq constFetchEnv ⟨[], 1⟩
      ["a", "b"]).2.1.images.map (fun e => e.2.id)) ∧
    (∀ imageId : Nat, getImageRelId imageId = "rId" ++ toString (imageId + 3)) ∧
    (sortById (runRegisterSeq constFetchEnv ⟨[], 1⟩ ["a", "b"]).2.1.images).map
        (fun e => e.2.id + 3) =
      List.range' 4 (runRegisterSeq constFetchEnv ⟨[], 1⟩
        ["a", "b"]).2.1.images.length :=
  claim_C3_id_and_relid_allocation constFetchEnv ["a", "b"]
theorem tableCellToXML_ctr_indep (data : TableCellData) (iid : Option Nat)
    (i : Nat) (opts : TableOptions) (ctr ctr' : Nat)
    (h : data.image = none ∨ iid = none) :
    (tableCellToXML data iid i opts ctr).1 =
      (tableCellToXML data iid i opts ctr').1 ∧
    (tableCellToXML data iid i opts ctr).2.1 = ctr := by
  rcases h with h | h
  · simp [tableCellToXML, h]
  · rcases hi : data.image with _ | img <;> simp [tableCellToXML, h, hi]

theorem rowCellsXML_ctr_indep (cells : List (TableCellData × Option Nat))
    (opts : TableOptions) :
    ∀ (i ctr ctr' : Nat), (∀ c ∈ cells, c.1.image = none ∨ c.2 = none) →
    (rowCellsXML cells i opts ctr).1 = (rowCellsXML cells i opts ctr').1 ∧
    (rowCellsXML cells i opts ctr).2.1 = ctr := by
  induction cells with
  | nil => intro i ctr ctr' _; exact ⟨rfl, rfl⟩
  | cons c cs ih =>
    intro i ctr ctr' h
    have hc := h c (by simp)
    have hcell := tableCellToXML_ctr_indep c.1 c.2 i opts ctr ctr' hc
    rcases e1 : tableCellToXML c.1 c.2 i opts ctr with ⟨x1, ctr1, r1⟩
    rcases e2 : tableCellToXML c.1 c.2 i opts ctr' with ⟨x2, ctr2, r2⟩
    rw [e1, e2] at hcell
    simp only at hcell
    obtain ⟨hx, hc1⟩ := hcell
    have ihr := ih (i + 1) ctr1 ctr2 (fun c hcm => h c (by simp [hcm]))
    have ihr1 := ih (i + 1) ctr1 ctr1 (fun c hcm => h c (by simp [hcm]))
    simp only [rowCellsXML, e1, e2]
    rcases e3 : rowCellsXML cs (i + 1) opts ctr1 with ⟨y1, d1, s1⟩
    rcases e4 : rowCellsXML cs (i + 1) opts ctr2 with ⟨y2, d2, s2⟩
    rw [e3, e4] at ihr
    rw [e3] at ihr1
    simp only at ihr ihr1
    exact ⟨by rw [hx, ihr.1], by simp only [ihr1.2, hc1]⟩

theorem tableRowToXML_ctr_indep (row : TableRowState) (opts : TableOptions)
    (ctr ctr' : Nat) (h : ∀ c ∈ row.cells, c.1.image = none ∨ c.2 = none) :
    (tableRowToXML row opts ctr).1 = (tableRowToXML row opts ctr').1 ∧
    (tableRowToXML row opts ctr).2.1 = ctr := by
  have hc := rowCellsXML_ctr_indep row.cells opts 0 ctr ctr' h
  rcases e1 : rowCellsXML row.cells 0 opts ctr with ⟨x1, c1, r1⟩
  rcases e2 : rowCellsXML row.cells 0 opts ctr' with ⟨x2, c2, r2⟩
  rw [e1, e2] at hc
  simp only at hc
  simp only [tableRowToXML, e1, e2]
  exact ⟨by rw [hc.1], hc.2⟩

theorem tableRowsXML_ctr_indep (rows : List TableRowState)
    (opts : TableOptions) :
    ∀ (ctr ctr' : Nat),
    (∀ r ∈ rows, ∀ c ∈ r.cells, c.1.image = none ∨ c.2 = none) →
    (tableRowsXML rows opts ctr).1 = (tableRowsXML rows opts ctr').1 ∧
    (tableRowsXML rows opts ctr).2.1 = ctr := by
  induction rows with
  | nil => intro ctr ctr' _; exact ⟨rfl, rfl⟩
  | cons r rs ih =>
    intro ctr ctr' h
    have hr := tableRowToXML_ctr_indep r opts ctr ctr' (h r (by simp))
    rcases e1 : tableRowToXML r opts ctr with ⟨x1, c1, s1⟩
    rcases e2 : tableRowToXML r opts ctr' with ⟨x2, c2, s2⟩
    rw [e1, e2] at hr
    simp only at hr
    have ihr := ih c1 c2 (fun q hq => h q (by simp [hq]))
    have ihr1 := ih c1 c1 (fun q hq => h q (by simp [hq]))
    simp only [tableRowsXML, e1, e2]
    rcases e3 : tableRowsXML rs opts c1 with ⟨y1, d1, t1⟩
    rcases e4 : tableRowsXML rs opts c2 with ⟨y2, d2, t2⟩
    rw [e3, e4] at ihr
    rw [e3] at ihr1
    simp only at ihr ihr1
    exact ⟨by rw [hr.1, ihr.1], by simp only [ihr1.2, hr.2]⟩

theorem tableToXMLWithSection_ctr_indep (t : TableState) (ctr ctr' : Nat)
    (h : ∀ r ∈ t.rows, ∀ c ∈ r.cells, c.1.image = none ∨ c.2 = none) :
    (tableToXMLWithSection t ctr).1 = (tableToXMLWithSection t ctr').1 ∧
    (tableToXMLWithSection t ctr).2.1 = ctr := by
  have hr := tableRowsXML_ctr_indep t.rows t.options ctr ctr' h
  rcases e1 : tableRowsXML t.rows t.options ctr with ⟨x1, c1, s1⟩
  rcases e2 : tableRowsXML t.rows t.options ctr' with ⟨x2, c2, s2⟩
  rw [e1, e2] at hr
  simp only at hr
  simp only [tableToXMLWithSection, e1, e2]
  exact ⟨by rw [hr.1], hr.2⟩
theorem normalizeSegment_no_image (opts : TableOptions) (i : Nat)
    (seg : RowSegment) (h : cellSegHasNoImage seg = true) :
    (normalizeSegment opts i seg).image = none := by
  cases seg with
  | strCell s => rfl
  | dataCell d =>
    simp only [cellSegHasNoImage, Option.isNone_iff_eq_none] at h
    simp [normalizeSegment, normalizeDataCell, h]
  | lineBreakCell n => rfl
  | pageBreakCell n => rfl

theorem attachIds_fst (cells : List (TableCellData × Option Nat)) :
    ∀ ids p, p ∈ (attachIds cells ids).1 → ∃ c ∈ cells, p.1 = c.1 := by
  induction cells with
  | nil => intro ids p hp; cases ids <;> simp [attachIds] at hp
  | cons c cs ih =>
    intro ids p hp
    cases ids with
    | nil =>
      simp only [attachIds, List.mem_cons] at hp
      rcases hp with rfl | hp
      · exact ⟨c, by simp, rfl⟩
      · obtain ⟨c', hc', he⟩ := ih [] p hp
        exact ⟨c', by simp [hc'], he⟩
    | cons i is =>
      simp only [attachIds, List.mem_cons] at hp
      rcases hp with rfl | hp
      · exact ⟨c, by simp, rfl⟩
      · have hp2 : p ∈ (attachIds cs is).1 := by
          rcases e : attachIds cs is with ⟨rest, rem⟩
          rw [e] at hp
          simpa [e] using hp
        obtain ⟨c', hc', he⟩ := ih is p hp2
        exact ⟨c', by simp [hc'], he⟩

theorem assignRowIds_cells (rows : List TableRowState) :
    ∀ ids r' p, r' ∈ (assignRowIds rows ids).1 → p ∈ r'.cells →
      ∃ r ∈ rows, ∃ c ∈ r.cells, p.1 = c.1 := by
  induction rows with
  | nil => intro ids r' p hr _; simp [assignRowIds] at hr
  | cons r rs ih =>
    intro ids r' p hr hp
    rcases e1 : attachIds r.cells ids with ⟨cells1, rem⟩
    rcases e2 : assignRowIds rs rem with ⟨rows1, rem2⟩
    simp only [assignRowIds, e1, e2, List.mem_cons] at hr
    rcases hr with rfl | hr
    · simp only at hp
      have : p ∈ (attachIds r.cells ids).1 := by rw [e1]; exact hp
      obtain ⟨c, hc, he⟩ := attachIds_fst r.cells ids p this
      exact ⟨r, by simp, c, hc, he⟩
    · have : r' ∈ (assignRowIds rs rem).1 := by rw [e2]; exact hr
      obtain ⟨r0, hr0, c, hc, he⟩ := ih rem r' p this hp
      exact ⟨r0, by simp [hr0], c, hc, he⟩

theorem registerImagesBatch_all_none (env : FetchEnv) (st : DocXaurState)
    (urls : List (Option String)) (h : ∀ u ∈ urls, u = none) :
    registerImagesBatch env st urls =
      (urls.map (fun _ => none), st, []) := by
  have hstat : urls.map (fun o =>
      match o with
      | none => CellRegStatus.noImage
      | some u =>
        match lookupImage st u with
        | some v => CellRegStatus.cached v.id
        | none => CellRegStatus.pending u) =
      urls.map (fun _ => CellRegStatus.noImage) := by
    apply List.map_congr_left
    intro u hu
    rw [h u hu]
  have hpend : (urls.map (fun _ => CellRegStatus.noImage)).filterMap (fun s =>
      match s with
      | CellRegStatus.pending u => some u
      | _ => none) = [] := by
    rw [List.filterMap_eq_nil_iff]
    intro a ha
    rcases List.mem_map.mp ha with ⟨u, _, rfl⟩
    rfl
  have hmerge : ∀ (l : List (Option String)),
      mergeBatchIds (l.map (fun _ => CellRegStatus.noImage)) [] =
        l.map (fun _ => (none : Option Nat)) := by
    intro l
    induction l with
    | nil => rfl
    | cons u us ih => simp only [List.map_cons, mergeBatchIds]; rw [ih]
  simp only [registerImagesBatch, hstat, hpend, registerPhase2, hmerge]
theorem buildRows_no_images (env : FetchEnv) (st : DocXaurState)
    (t : TableState) (h : tableHasNoImages t = true) :
    (buildRows env st t).2.1 = st ∧
    (∀ r ∈ (buildRows env st t).1.rows, ∀ c ∈ r.cells,
      c.1.image = none ∨ c.2 = none) := by
  simp only [tableHasNoImages, Bool.and_eq_true, List.all_eq_true] at h
  by_cases hb : t.isBuilt
  · simp only [buildRows, hb, if_true]
    refine ⟨by trivial, ?_⟩
    intro r hr c hc
    have hcc := h.2 r hr c hc
    simp only [Bool.not_eq_true', Bool.and_eq_false_iff] at hcc
    rcases hcc with hcc | hcc
    · exact Or.inl ((Option.not_isSome_iff_eq_none).mp (by simp [hcc]))
    · exact Or.inr ((Option.not_isSome_iff_eq_none).mp (by simp [hcc]))
  · have hcells : ∀ rd ∈ t.rowDefs, ∀ p ∈ (buildRowCells t.options rd).cells,
        p.1.image = none := by
      intro rd hrd p hp
      simp only [buildRowCells, List.mem_map] at hp
      obtain ⟨q, hq, rfl⟩ := hp
      have hseg := h.1 rd hrd
      have hqmem : q.2 ∈ rd.cells := by
        obtain ⟨i, x⟩ := q
        have := List.mem_enum hq
        rw [this.2]
        exact List.getElem_mem this.1
      simpa using normalizeSegment_no_image t.options q.1 q.2 (hseg q.2 hqmem)
    have hurls : ∀ u ∈ ((t.rowDefs.map (buildRowCells t.options)).map (fun r =>
        r.cells.map (fun c => c.1.image.map (fun i => i.url)))).flatten,
        u = none := by
      intro u hu
      rcases List.mem_flatten.mp hu with ⟨inner, hinner, humem⟩
      rcases List.mem_map.mp hinner with ⟨r, hrmem, rfl⟩
      rcases List.mem_map.mp humem with ⟨c, hcmem, rfl⟩
      rcases List.mem_map.mp hrmem with ⟨rd, hrd, rfl⟩
      rw [hcells rd hrd c hcmem]
      rfl
    have hbatch := registerImagesBatch_all_none env st _ hurls
    have hb' : t.isBuilt = false := by simpa using hb
    simp only [buildRows, hb', Bool.false_eq_true, if_false, hbatch]
    refine ⟨by trivial, ?_⟩
    intro r hr c hc
    obtain ⟨r0, hr0, c0, hc0, he⟩ := assignRowIds_cells _ _ r c hr hc
    rcases List.mem_map.mp hr0 with ⟨rd, hrd, rfl⟩
    rw [he]
    exact Or.inl (hcells rd hrd c0 hc0)
theorem sectionElemsXML_st_ctr_indep (env : FetchEnv) (els : List SElem) :
    ∀ st ctr ctr',
    (sectionElemsXML env st els ctr).2.1 =
      (sectionElemsXML env st els ctr').2.1 := by
  induction els with
  | nil => intro st ctr ctr'; rfl
  | cons e rest ih =>
    intro st ctr ctr'
    cases e with
    | image iid opts =>
      simp only [sectionElemsXML]
      rcases e1 : imageToXML iid opts ctr with ⟨x1, c1, r1⟩
      rcases e2 : imageToXML iid opts ctr' with ⟨x2, c2, r2⟩
      rcases e3 : sectionElemsXML env st rest c1 with ⟨y1, s1, d1, t1⟩
      rcases e4 : sectionElemsXML env st rest c2 with ⟨y2, s2, d2, t2⟩
      have := ih st c1 c2
      rw [e3, e4] at this
      simpa using this
    | table t =>
      simp only [sectionElemsXML]
      rcases eb : buildRows env st t with ⟨t1, st1, log⟩
      rcases e1 : tableToXMLWithSection t1 ctr with ⟨x1, c1, r1⟩
      rcases e2 : tableToXMLWithSection t1 ctr' with ⟨x2, c2, r2⟩
      rcases e3 : sectionElemsXML env st1 rest c1 with ⟨y1, s1, d1, t1x⟩
      rcases e4 : sectionElemsXML env st1 rest c2 with ⟨y2, s2, d2, t2x⟩
      have := ih st1 c1 c2
      rw [e3, e4] at this
      simpa using this

theorem docSectionsXML_st_ctr_indep (env : FetchEnv)
    (secs : List SectionState) :
    ∀ st ctr ctr',
    (docSectionsXML env st secs ctr).2.1 =
      (docSectionsXML env st secs ctr').2.1 := by
  induction secs with
  | nil => intro st ctr ctr'; rfl
  | cons s rest ih =>
    intro st ctr ctr'
    simp only [docSectionsXML]
    rcases e1 : sectionElemsXML env st s.elements ctr with ⟨x1, st1, c1, r1⟩
    rcases e2 : sectionElemsXML env st s.elements ctr' with ⟨x2, st2, c2, r2⟩
    have hst : st1 = st2 := by
      have := sectionElemsXML_st_ctr_indep env s.elements st ctr ctr'
      rw [e1, e2] at this
      simpa using this
    subst hst
    rcases e3 : docSectionsXML env st1 rest c1 with ⟨y1, s1, d1, t1⟩
    rcases e4 : docSectionsXML env st1 rest c2 with ⟨y2, s2, d2, t2⟩
    have := ih st1 c1 c2
    rw [e3, e4] at this
    simpa using this

theorem sectionElemsXML_no_images (env : FetchEnv) (els : List SElem) :
    ∀ st ctr ctr', (∀ e ∈ els, elemHasNoImages e = true) →
    (sectionElemsXML env st els ctr).1 = (sectionElemsXML env st els ctr').1 ∧
    (sectionElemsXML env st els ctr).2.2.1 = ctr := by
  induction els with
  | nil => intro st ctr ctr' _; exact ⟨rfl, rfl⟩
  | cons e rest ih =>
    intro st ctr ctr' h
    cases e with
    | image iid opts =>
      have := h (SElem.image iid opts) (by simp)
      simp [elemHasNoImages] at this
    | table t =>
      have ht : tableHasNoImages t = true := by
        have := h (SElem.table t) (by simp)
        simpa [elemHasNoImages] using this
      simp only [sectionElemsXML]
      rcases eb : buildRows env st t with ⟨t1, st1, log⟩
      have hsafe : ∀ r ∈ t1.rows, ∀ c ∈ r.cells,
          c.1.image = none ∨ c.2 = none := by
        have := (buildRows_no_images env st t ht).2
        rw [eb] at this
        simpa using this
      have htbl := tableToXMLWithSection_ctr_indep t1 ctr ctr' hsafe
      rcases e1 : tableToXMLWithSection t1 ctr with ⟨x1, c1, r1⟩
      rcases e2 : tableToXMLWithSection t1 ctr' with ⟨x2, c2, r2⟩
      rw [e1, e2] at htbl
      simp only at htbl
      obtain ⟨hx, hc1⟩ := htbl
      have hc2 : c2 = ctr' := by
        have := tableToXMLWithSection_ctr_indep t1 ctr' ctr' hsafe
        rw [e2] at this
        simpa using this.2
      have ihr := ih st1 c1 c2 (fun q hq => h q (by simp [hq]))
      have ihr1 := ih st1 c1 c1 (fun q hq => h q (by simp [hq]))
      rcases e3 : sectionElemsXML env st1 rest c1 with ⟨y1, s1, d1, t1x⟩
      rcases e4 : sectionElemsXML env st1 rest c2 with ⟨y2, s2, d2, t2x⟩
      rw [e3, e4] at ihr
      rw [e3] at ihr1
      simp only at ihr ihr1
      exact ⟨by rw [hx, ihr.1], by simp only [ihr1.2, hc1]⟩

theorem docSectionsXML_no_images (env : FetchEnv) (secs : List SectionState) :
    ∀ st ctr ctr',
    (∀ s ∈ secs, ∀ e ∈ s.elements, elemHasNoImages e = true) →
    (docSectionsXML env st secs ctr).1 = (docSectionsXML env st secs ctr').1 ∧
    (docSectionsXML env st secs ctr).2.2.1 = ctr := by
  induction secs with
  | nil => intro st ctr ctr' _; exact ⟨rfl, rfl⟩
  | cons s rest ih =>
    intro st ctr ctr' h
    simp only [docSectionsXML]
    have hsec := sectionElemsXML_no_images env s.elements st ctr ctr'
      (h s (by simp))
    rcases e1 : sectionElemsXML env st s.elements ctr with ⟨x1, st1, c1, r1⟩
    rcases e2 : sectionElemsXML env st s.elements ctr' with ⟨x2, st2, c2, r2⟩
    have hst : st1 = st2 := by
      have := sectionElemsXML_st_ctr_indep env s.elements st ctr ctr'
      rw [e1, e2] at this
      simpa using this
    subst hst
    rw [e1, e2] at hsec
    simp only at hsec
    obtain ⟨hx, hc1⟩ := hsec
    have hc2 : c2 = ctr' := by
      have := sectionElemsXML_no_images env s.elements st ctr' ctr'
        (h s (by simp))
      rw [e2] at this
      simpa using this.2
    have ihr := ih st1 c1 c2 (fun q hq e he => h q (by simp [hq]) e he)
    have ihr1 := ih st1 c1 c1 (fun q hq e he => h q (by simp [hq]) e he)
    rcases e3 : docSectionsXML env st1 rest c1 with ⟨y1, s1, d1, t1⟩
    rcases e4 : docSectionsXML env st1 rest c2 with ⟨y2, s2, d2, t2⟩
    rw [e3, e4] at ihr
    rw [e3] at ihr1
    simp only at ihr ihr1
    exact ⟨by rw [hx, ihr.1], by simp only [ihr1.2, hc1]⟩
/-- C7 counterexample: a document with two sections renders a body with
exactly one page-properties fragment, not one per section — the first
section's page configuration is dropped. -/
theorem claim_C7_counterexample :
    countSub (generateDocumentAsync constFetchEnv twoSectionDoc 1).1.data
      "<w:sectPr>".data = 1 ∧
    twoSectionDoc.sections.length = 2 := by
  constructor <;> decide

/-- C7 (amended): the rendered body consists of the prologue, all
sections' elements in order, then the page-properties fragment of the
last section alone, closing the body; non-last sections' page
configuration is never emitted (the section element loop renders
elements only). -/
theorem claim_C7_amended_last_section_properties (env : FetchEnv)
    (doc : DocXaurDoc) (ctr : Nat) (h : doc.sections ≠ []) :
    (generateDocumentAsync env doc ctr).1 =
      docHeaderXML ++ (docSectionsXML env doc.state doc.sections ctr).1
        ++ getSectionPropertiesXML (doc.sections.getLast h)
        ++ "  </w:body>\n</w:document>" := by
  simp only [generateDocumentAsync, List.getLast?_eq_getLast_of_ne_nil h]

/-- C7 witness: the amended statement instantiated at the two-section
document. -/
theorem claim_C7_amended_last_section_properties_witness :
    (twoSectionDoc.sections ≠ []) ∧
    ((generateDocumentAsync constFetchEnv twoSectionDoc 1).1 =
      docHeaderXML ++
        (docSectionsXML constFetchEnv twoSectionDoc.state
          twoSectionDoc.sections 1).1
        ++ getSectionPropertiesXML (twoSectionDoc.sections.getLast (by decide))
        ++ "  </w:body>\n</w:document>") :=
  ⟨by decide, claim_C7_amended_last_section_properties constFetchEnv
    twoSectionDoc 1 (by decide)⟩

/-- C8 counterexample: a table that has completed `buildRows` (Built
state) still throws from `toXML`, while an unbuilt table renders `w:tbl`
markup through `_toXMLWithSection` without any error. -/
theorem claim_C8_counterexample :
    (buildRows constFetchEnv ⟨[], 1⟩ twoColTable).1.isBuilt = true ∧
    tableToXML (buildRows constFetchEnv ⟨[], 1⟩ twoColTable).1 =
      Except.error
        "Table.toXML() requires a Section context—use section.table(...)" ∧
    twoColTable.isBuilt = false ∧
    containsSub (tableToXMLWithSection twoColTable 1).1.data
      "<w:tbl>".data = true := by
  exact ⟨by decide, rfl, by decide, by decide⟩

/-- C8 (amended): the `Element` render entry `Table.toXML` signals the
section-context error unconditionally — before and after build alike —
while `_toXMLWithSection` performs no built-state check and emits table
markup for any table state; the build-before-render ordering is enforced
only by the section loop, which awaits `buildRows` before rendering. -/
theorem claim_C8_amended_render_entry_behaviour (t : TableState) (ctr : Nat) :
    tableToXML t = Except.error
      "Table.toXML() requires a Section context—use section.table(...)" ∧
    ∃ rest, (tableToXMLWithSection t ctr).1 =
      "  <w:tbl>\n    <w:tblPr>\n" ++ rest := by
  refine ⟨rfl, ?_⟩
  rcases e : tableRowsXML t.rows t.options ctr with ⟨rx, c1, r1⟩
  simp only [tableToXMLWithSection, e, String.append_assoc]
  exact ⟨_, rfl⟩

/-- C9 counterexample: rendering the same one-image document twice from
identical fresh instance states yields different body markup, because
the drawing-id counter (`Image.drawingCounter`) is class-static and
carries over between builds in one process. -/
theorem claim_C9_counterexample :
    (generateDocumentAsync constFetchEnv oneImageDoc 1).1 ≠
      (generateDocumentAsync constFetchEnv oneImageDoc
        (generateDocumentAsync constFetchEnv oneImageDoc 1).2.2.1).1 := by
  decide

theorem generateDocumentAsync_st_ctr_indep (env : FetchEnv)
    (doc : DocXaurDoc) (ctr ctr' : Nat) :
    (generateDocumentAsync env doc ctr).2.1 =
      (generateDocumentAsync env doc ctr').2.1 := by
  simp only [generateDocumentAsync]
  rcases e1 : docSectionsXML env doc.state doc.sections ctr with ⟨x1, s1, c1, r1⟩
  rcases e2 : docSectionsXML env doc.state doc.sections ctr' with ⟨x2, s2, c2, r2⟩
  have := docSectionsXML_st_ctr_indep env doc.sections doc.state ctr ctr'
  rw [e1, e2] at this
  simpa using this

theorem generateDocumentAsync_no_images (env : FetchEnv) (doc : DocXaurDoc)
    (ctr ctr' : Nat) (h : docHasNoImages doc = true) :
    (generateDocumentAsync env doc ctr).1 =
      (generateDocumentAsync env doc ctr').1 := by
  have hels : ∀ s ∈ doc.sections, ∀ e ∈ s.elements,
      elemHasNoImages e = true := by
    simp only [docHasNoImages, List.all_eq_true] at h
    exact h
  simp only [generateDocumentAsync]
  rcases e1 : docSectionsXML env doc.state doc.sections ctr with ⟨x1, s1, c1, r1⟩
  rcases e2 : docSectionsXML env doc.state doc.sections ctr' with ⟨x2, s2, c2, r2⟩
  have := docSectionsXML_no_images env doc.sections doc.state ctr ctr' hels
  rw [e1, e2] at this
  simp only at this
  simp [this.1]

/-- C9 (amended): the image registry map and the image id counter are
instance fields, so the registration outcome and the written
relationship manifest of a build are independent of the process-global
drawing counter; but the drawing counter itself is class-static
(`Image.drawingCounter`), so body markup is only reproducible across
builds in one process for documents that render no inline drawing. -/
theorem claim_C9_amended_instance_scoped_registry (env : FetchEnv)
    (doc : DocXaurDoc) (ctr ctr' : Nat) :
    (createDocxZip env doc ctr).2.1 = (createDocxZip env doc ctr').2.1 ∧
    (createDocxZip env doc ctr).1.getD 2 ("", "") =
      (createDocxZip env doc ctr').1.getD 2 ("", "") ∧
    (docHasNoImages doc = true →
      (createDocxZip env doc ctr).1 = (createDocxZip env doc ctr').1) := by
  have hst := generateDocumentAsync_st_ctr_indep env doc ctr ctr'
  rcases g1 : generateDocumentAsync env doc ctr with ⟨x1, s1, c1, r1⟩
  rcases g2 : generateDocumentAsync env doc ctr' with ⟨x2, s2, c2, r2⟩
  rw [g1, g2] at hst
  simp only at hst
  subst hst
  refine ⟨?_, ?_, ?_⟩
  · simp [createDocxZip, g1, g2]
  · simp [createDocxZip, g1, g2, List.getD_cons_succ, List.getD_cons_zero]
  · intro h
    have hx := generateDocumentAsync_no_images env doc ctr ctr' h
    rw [g1, g2] at hx
    simp only at hx
    simp [createDocxZip, g1, g2, hx]

/-- C9 witness: the amended statement instantiated at the one-image
document and counters 1 and 2. -/
theorem claim_C9_amended_instance_scoped_registry_witness :
    (createDocxZip constFetchEnv oneImageDoc 1).2.1 =
      (createDocxZip constFetchEnv oneImageDoc 2).2.1 ∧
    (createDocxZip constFetchEnv oneImageDoc 1).1.getD 2 ("", "") =
      (createDocxZip constFetchEnv oneImageDoc 2).1.getD 2 ("", "") ∧
    (docHasNoImages oneImageDoc = true →
      (createDocxZip constFetchEnv oneImageDoc 1).1 =
        (createDocxZip constFetchEnv oneImageDoc 2).1) :=
  claim_C9_amended_instance_scoped_registry constFetchEnv oneImageDoc 1 2
/-- C1: evaluation of the package assembler at the failing input — a
document whose single table embeds the same unseen locator in two cells.
The body composition does complete before the manifest is built, but the
check-then-fetch race of `registerImage` inside the fan-out cell batch
registers the locator twice: the rendered embed runs reference both
`rId4` and `rId5`, while the written `word/_rels/document.xml.rels` part
contains `rId5` only, so a referenced relationship id has no manifest
entry. -/
theorem claim_C1_race_eval :
    (createDocxZip constFetchEnv dupLocatorDoc 1).2.2.2 = ["rId4", "rId5"] ∧
    containsSub
      ((createDocxZip constFetchEnv dupLocatorDoc 1).1.getD 3 ("", "")).2.data
      "r:embed=\"rId4\"".data = true ∧
    "rId4".data ∉ manifestIds
      ((createDocxZip constFetchEnv dupLocatorDoc 1).1.getD 2 ("", "")).2 ∧
    "rId5".data ∈ manifestIds
      ((createDocxZip constFetchEnv dupLocatorDoc 1).1.getD 2 ("", "")).2 := by
  exact ⟨by decide, by decide, by decide, by decide⟩
theorem canonicalRid_iff (r : String) :
    canonicalRid r = true ↔
      ∃ ds, ds ≠ [] ∧ (∀ c ∈ ds, c.isDigit) ∧
        r.data = 'r' :: 'I' :: 'd' :: ds := by
  constructor
  · intro h
    unfold canonicalRid at h
    split at h
    · next ds heq =>
      rw [Bool.and_eq_true] at h
      refine ⟨ds, ?_, ?_, heq⟩
      · intro hnil; rw [hnil] at h; simp at h
      · rw [← List.all_eq_true]; exact h.2
    · simp at h
  · rintro ⟨ds, h1, h2, h3⟩
    unfold canonicalRid
    rw [h3]
    show (!ds.isEmpty && ds.all Char.isDigit) = true
    rw [Bool.and_eq_true, List.all_eq_true]
    exact ⟨by simpa using h1, h2⟩

theorem idPat_cons (ds tail : List Char) :
    idPat ('r' :: 'I' :: 'd' :: ds) ++ tail =
      'I' :: 'd' :: '=' :: '"' :: 'r' :: 'I' :: 'd' :: (ds ++ '"' :: tail) := by
  simp [idPat]

theorem matchIdAt_complete (ds tail : List Char) (h1 : ds ≠ [])
    (h2 : ∀ c ∈ ds, c.isDigit) :
    matchIdAt (idPat ('r' :: 'I' :: 'd' :: ds) ++ tail) =
      some ('r' :: 'I' :: 'd' :: ds, tail) := by
  rw [idPat_cons]
  have htake := takeWhile_all_append Char.isDigit ds '"' tail h2 (by decide)
  simp only [matchIdAt, htake.1, htake.2]
  simp [h1]

theorem matchIdAt_sound {s r tail : List Char}
    (h : matchIdAt s = some (r, tail)) :
    ∃ ds, ds ≠ [] ∧ (∀ c ∈ ds, c.isDigit) ∧ r = 'r' :: 'I' :: 'd' :: ds ∧
      s = idPat r ++ tail := by
  unfold matchIdAt at h
  split at h
  · next rest =>
    rename_i heqs
    split at h
    · next tail2 heqd =>
      dsimp only at h
      split at h
      · simp at h
      · next hne =>
        injection h with h1
        injection h1 with hr ht
        refine ⟨rest.takeWhile Char.isDigit, by simpa using hne, ?_, ?_, ?_⟩
        · intro c hc; exact List.mem_takeWhile_imp hc
        · exact hr.symm
        · rw [← hr, ← ht]
          rw [idPat_cons]
          have h4 : rest = List.takeWhile Char.isDigit rest ++ '"' :: tail2 := by
            conv_lhs => rw [← List.takeWhile_append_dropWhile Char.isDigit rest]
            rw [heqd]
          conv_lhs => rw [h4]
    · simp at h
  · simp at h

theorem matchIdAt_tail_lt {s r tail : List Char}
    (h : matchIdAt s = some (r, tail)) : tail.length < s.length := by
  obtain ⟨ds, _, _, hr, hs⟩ := matchIdAt_sound h
  rw [hs]
  simp [idPat]
  omega

theorem containsSub_nil_pat (s : List Char) : containsSub s [] = true := by
  cases s with
  | nil => rfl
  | cons x xs => simp [containsSub, List.isPrefixOf]

theorem containsSub_intro (pat u v : List Char) :
    containsSub (u ++ pat ++ v) pat = true := by
  induction u with
  | nil =>
    cases pat with
    | nil => simpa using containsSub_nil_pat v
    | cons p ps =>
      have hp : (p :: ps).isPrefixOf ((p :: ps) ++ v) = true :=
        List.isPrefixOf_iff_prefix.mpr (List.prefix_append _ _)
      simp only [List.nil_append, List.cons_append] at hp ⊢
      simp [containsSub, hp]
  | cons x u' ih =>
    simp only [List.cons_append]
    simp only [containsSub, Bool.or_eq_true]
    right
    simpa using ih

theorem containsSub_sound : ∀ s pat : List Char, containsSub s pat = true →
    ∃ u v, s = u ++ pat ++ v := by
  intro s
  induction s with
  | nil =>
    intro pat h
    simp only [containsSub, List.isEmpty_iff] at h
    exact ⟨[], [], by simp [h]⟩
  | cons x xs ih =>
    intro pat h
    simp only [containsSub, Bool.or_eq_true] at h
    rcases h with h | h
    · obtain ⟨t, ht⟩ := List.isPrefixOf_iff_prefix.mp h
      exact ⟨[], t, by rw [List.nil_append]; exact ht.symm⟩
    · obtain ⟨u, v, huv⟩ := ih pat h
      exact ⟨x :: u, v, by simp [huv]⟩

theorem replaceFirst_self : ∀ s pat : List Char, replaceFirst s pat pat = s := by
  intro s
  induction s with
  | nil =>
    intro pat
    cases pat with
    | nil => rfl
    | cons p ps => rfl
  | cons x xs ih =>
    intro pat
    show (if pat.isPrefixOf (x :: xs) then pat ++ (x :: xs).drop pat.length
      else x :: replaceFirst xs pat pat) = x :: xs
    split
    · next hp =>
      obtain ⟨t, ht⟩ := List.isPrefixOf_iff_prefix.mp hp
      rw [← ht, List.drop_left]
    · next => rw [ih]

theorem replaceFirst_decomp : ∀ s pat rep : List Char,
    containsSub s pat = true →
    ∃ A B, s = A ++ pat ++ B ∧ replaceFirst s pat rep = A ++ rep ++ B := by
  intro s
  induction s with
  | nil =>
    intro pat rep h
    simp only [containsSub, List.isEmpty_iff] at h
    subst h
    exact ⟨[], [], by simp, by simp [replaceFirst]⟩
  | cons x xs ih =>
    intro pat rep h
    by_cases hp : pat.isPrefixOf (x :: xs) = true
    · obtain ⟨t, ht⟩ := List.isPrefixOf_iff_prefix.mp hp
      refine ⟨[], t, by rw [List.nil_append]; exact ht.symm, ?_⟩
      show (if pat.isPrefixOf (x :: xs) then rep ++ (x :: xs).drop pat.length
        else x :: replaceFirst xs pat rep) = [] ++ rep ++ t
      split
      · next => rw [← ht, List.drop_left, List.nil_append]
      · next hq => exact absurd hp hq
    · have h' : containsSub xs pat = true := by
        simp only [containsSub, Bool.or_eq_true] at h
        rcases h with h | h
        · exact absurd h hp
        · exact h
      obtain ⟨A, B, h1, h2⟩ := ih pat rep h'
      refine ⟨x :: A, B, by simp [h1], ?_⟩
      show (if pat.isPrefixOf (x :: xs) then rep ++ (x :: xs).drop pat.length
        else x :: replaceFirst xs pat rep) = (x :: A) ++ rep ++ B
      split
      · next hq => exact absurd hq hp
      · next => rw [h2]; simp

theorem jsTrim_ne_nil {s : List Char} {c : Char} (hc : c ∈ s)
    (hw : isJsWS c = false) : jsTrim s ≠ [] := by
  intro h
  unfold jsTrim at h
  rw [List.reverse_eq_nil_iff, List.dropWhile_eq_nil_iff] at h
  have h2 : ∀ x ∈ s.dropWhile isJsWS, isJsWS x = true := by
    intro x hx
    exact h x (List.mem_reverse.mpr hx)
  have hsplit : s.takeWhile isJsWS ++ s.dropWhile isJsWS = s :=
    List.takeWhile_append_dropWhile isJsWS s
  have hc' : c ∈ s.takeWhile isJsWS ++ s.dropWhile isJsWS := by
    rw [hsplit]; exact hc
  rcases List.mem_append.mp hc' with h3 | h3
  · exact absurd (List.mem_takeWhile_imp h3) (by simp [hw])
  · exact absurd (h2 c h3) (by simp [hw])

theorem pat_no_overlap (ds2 ds v tail : List Char) (h2 : ds2 ≠ [])
    (h2d : ∀ c ∈ ds2, c.isDigit) :
    ∀ a w : List Char, a ≠ [] → a ++ w = idPat ('r' :: 'I' :: 'd' :: ds2) →
      w ++ tail = idPat ('r' :: 'I' :: 'd' :: ds) ++ v → w = [] := by
  have hpat2 : idPat ('r' :: 'I' :: 'd' :: ds2) =
      'I' :: 'd' :: '=' :: '"' :: 'r' :: 'I' :: 'd' :: (ds2 ++ ['"']) := by
    simp [idPat]
  have hpat : idPat ('r' :: 'I' :: 'd' :: ds) ++ v =
      'I' :: 'd' :: '=' :: '"' :: 'r' :: 'I' :: 'd' :: (ds ++ '"' :: v) :=
    idPat_cons ds v
  intro a w ha heq hw
  rw [hpat2] at heq
  rw [hpat] at hw
  by_contra hwne
  obtain _ | ⟨x0, a⟩ := a
  · exact ha rfl
  rw [List.cons_append] at heq
  injection heq with hx0 heq
  obtain _ | ⟨x1, a⟩ := a
  · rw [List.nil_append] at heq
    rw [heq, List.cons_append] at hw
    injection hw with h1 _
    exact absurd h1 (by decide)
  rw [List.cons_append] at heq
  injection heq with hx1 heq
  obtain _ | ⟨x2, a⟩ := a
  · rw [List.nil_append] at heq
    rw [heq, List.cons_append] at hw
    injection hw with h1 _
    exact absurd h1 (by decide)
  rw [List.cons_append] at heq
  injection heq with hx2 heq
  obtain _ | ⟨x3, a⟩ := a
  · rw [List.nil_append] at heq
    rw [heq, List.cons_append] at hw
    injection hw with h1 _
    exact absurd h1 (by decide)
  rw [List.cons_append] at heq
  injection heq with hx3 heq
  obtain _ | ⟨x4, a⟩ := a
  · rw [List.nil_append] at heq
    rw [heq, List.cons_append] at hw
    injection hw with h1 _
    exact absurd h1 (by decide)
  rw [List.cons_append] at heq
  injection heq with hx4 heq
  obtain _ | ⟨x5, a⟩ := a
  · rw [List.nil_append] at heq
    rw [heq] at hw
    simp only [List.cons_append] at hw
    injection hw with h1 hw
    injection hw with h2' hw
    obtain _ | ⟨d0, ds2'⟩ := ds2
    · exact h2 rfl
    · simp only [List.cons_append] at hw
      injection hw with hd0 _
      have hdd : d0.isDigit := h2d d0 (by simp)
      rw [hd0] at hdd
      exact absurd hdd (by decide)
  rw [List.cons_append] at heq
  injection heq with hx5 heq
  obtain _ | ⟨x6, a⟩ := a
  · rw [List.nil_append] at heq
    rw [heq, List.cons_append] at hw
    injection hw with h1 _
    exact absurd h1 (by decide)
  rw [List.cons_append] at heq
  injection heq with hx6 heq
  rcases List.append_eq_append_iff.mp heq with ⟨as, hds2, hwq⟩ | ⟨cs, hacs, hq⟩
  · obtain _ | ⟨q, as'⟩ := as
    · rw [List.nil_append] at hwq
      rw [hwq, List.cons_append] at hw
      injection hw with h1 _
      exact absurd h1 (by decide)
    · have hqd : q.isDigit := h2d q (by rw [hds2]; simp)
      rw [hwq] at hw
      simp only [List.cons_append] at hw
      injection hw with hq' _
      rw [hq'] at hqd
      exact absurd hqd (by decide)
  · obtain _ | ⟨q, cs'⟩ := cs
    · rw [List.nil_append] at hq
      rw [← hq, List.cons_append] at hw
      injection hw with h1 _
      exact absurd h1 (by decide)
    · rw [List.cons_append] at hq
      injection hq with _ hq2
      exact hwne (List.append_eq_nil.mp hq2.symm).2

theorem scan_mem (ds : List Char) (hne : ds ≠ [])
    (hdig : ∀ c ∈ ds, c.isDigit) :
    ∀ fuel : Nat, ∀ u v : List Char,
      (u ++ idPat ('r' :: 'I' :: 'd' :: ds) ++ v).length ≤ fuel →
      ('r' :: 'I' :: 'd' :: ds) ∈
        scanIdsAux fuel (u ++ idPat ('r' :: 'I' :: 'd' :: ds) ++ v) := by
  intro fuel
  induction fuel with
  | zero =>
    intro u v h
    exfalso
    simp [idPat] at h
  | succ f ih =>
    intro u v hlen
    cases u with
    | nil =>
      rw [List.nil_append]
      have hm : matchIdAt ('I' :: 'd' :: '=' :: '"' :: 'r' :: 'I' :: 'd' ::
          (ds ++ '"' :: v)) = some ('r' :: 'I' :: 'd' :: ds, v) := by
        rw [← idPat_cons]
        exact matchIdAt_complete ds v hne hdig
      rw [idPat_cons]
      simp only [scanIdsAux, hm]
      exact List.mem_cons_self _ _
    | cons c u' =>
      have hshape : (c :: u') ++ idPat ('r' :: 'I' :: 'd' :: ds) ++ v =
          c :: (u' ++ idPat ('r' :: 'I' :: 'd' :: ds) ++ v) := by simp
      rw [hshape]
      cases hm : matchIdAt (c :: (u' ++ idPat ('r' :: 'I' :: 'd' :: ds) ++ v))
        with
      | none =>
        simp only [scanIdsAux, hm]
        apply ih u' v
        simp only [List.length_append, List.length_cons] at hlen ⊢
        omega
      | some pr =>
        obtain ⟨r2, tail⟩ := pr
        simp only [scanIdsAux, hm]
        obtain ⟨ds2, hne2, hdig2, hr2, hs⟩ := matchIdAt_sound hm
        have hs' : (c :: u') ++ (idPat ('r' :: 'I' :: 'd' :: ds) ++ v) =
            idPat r2 ++ tail := by simpa using hs
        have hds2pos : 0 < ds2.length := List.length_pos.mpr hne2
        have hlen2 : tail.length ≤ f := by
          have hl := congrArg List.length hs'
          rw [hr2] at hl
          simp only [idPat, List.length_append, List.length_cons,
            List.length_singleton] at hl
          simp only [idPat, List.length_append, List.length_cons,
            List.length_singleton] at hlen
          omega
        rcases List.append_eq_append_iff.mp hs' with ⟨as, h1, h2⟩ |
          ⟨cs, h1, h2⟩
        · have has : as = [] := by
            rw [hr2] at h1
            exact pat_no_overlap ds2 ds v tail hne2 hdig2 (c :: u') as
              (by simp) h1.symm h2.symm
          rw [has, List.nil_append] at h2
          apply List.mem_cons_of_mem
          have hmem := ih [] v
            (by simp only [List.nil_append]; rw [h2]; exact hlen2)
          rw [List.nil_append, h2] at hmem
          exact hmem
        · apply List.mem_cons_of_mem
          have htail : tail = cs ++ idPat ('r' :: 'I' :: 'd' :: ds) ++ v := by
            rw [h2]
            simp [List.append_assoc]
          rw [htail]
          exact ih cs v (htail ▸ hlen2)

theorem scan_sound : ∀ fuel : Nat, ∀ s r : List Char, r ∈ scanIdsAux fuel s →
    (∃ u v, s = u ++ idPat r ++ v) ∧
      ∃ ds, ds ≠ [] ∧ (∀ c ∈ ds, c.isDigit) ∧ r = 'r' :: 'I' :: 'd' :: ds := by
  intro fuel
  induction fuel with
  | zero =>
    intro s r h
    simp [scanIdsAux] at h
  | succ f ih =>
    intro s r h
    cases s with
    | nil => simp [scanIdsAux] at h
    | cons x xs =>
      cases hm : matchIdAt (x :: xs) with
      | none =>
        obtain ⟨⟨u, v, hs⟩, hds⟩ := ih xs r (by simpa [scanIdsAux, hm] using h)
        exact ⟨⟨x :: u, v, by simp [hs]⟩, hds⟩
      | some pr =>
        obtain ⟨r2, tail⟩ := pr
        have h' : r ∈ r2 :: scanIdsAux f tail := by
          simpa [scanIdsAux, hm] using h
        obtain ⟨ds2, hne2, hdig2, hr2, hs⟩ := matchIdAt_sound hm
        rcases List.mem_cons.mp h' with rfl | hmem
        · exact ⟨⟨[], tail, by simpa using hs⟩, ds2, hne2, hdig2, hr2⟩
        · obtain ⟨⟨u, v, ht⟩, hds⟩ := ih tail r hmem
          refine ⟨⟨idPat r2 ++ u, v, ?_⟩, hds⟩
          rw [hs, ht]
          simp

theorem occ_split {P c : List Char} (hdisj : ∀ x ∈ P, x ∉ c) (hc : c ≠ [])
    (hP : P ≠ []) :
    ∀ u v A B : List Char, u ++ P ++ v = A ++ c ++ B →
      (∃ w, A = u ++ P ++ w) ∨ (∃ w w', B = w ++ P ++ w') := by
  intro u v A B h
  have h' : u ++ (P ++ v) = A ++ (c ++ B) := by
    simpa [List.append_assoc] using h
  rcases List.append_eq_append_iff.mp h' with ⟨as, hA, hb⟩ | ⟨cs, hu, hd⟩
  · rcases List.append_eq_append_iff.mp hb with ⟨bs, has, hv⟩ |
      ⟨ps, hP2, hd2⟩
    · left
      exact ⟨bs, by rw [hA, has]; simp [List.append_assoc]⟩
    · obtain _ | ⟨q, ps'⟩ := ps
      · left
        rw [List.append_nil] at hP2
        exact ⟨[], by rw [hA, hP2]; simp⟩
      · exfalso
        have hqP : q ∈ P := by rw [hP2]; simp
        obtain _ | ⟨c0, c'⟩ := c
        · exact hc rfl
        · rw [List.cons_append] at hd2
          injection hd2 with hc0 _
          exact hdisj q hqP (by rw [← hc0]; simp)
  · rcases List.append_eq_append_iff.mp hd with ⟨es, hcs, hB⟩ | ⟨fs, hc2, hPv⟩
    · right
      exact ⟨es, v, by rw [hB]; simp [List.append_assoc]⟩
    · obtain _ | ⟨q, fs'⟩ := fs
      · right
        rw [List.append_nil] at hc2
        refine ⟨[], v, ?_⟩
        simp only [List.nil_append] at hPv
        rw [← hPv]
        simp
      · exfalso
        have hqc : q ∈ c := by rw [hc2]; simp
        obtain _ | ⟨p0, P'⟩ := P
        · exact hP rfl
        · rw [List.cons_append] at hPv
          injection hPv with hp0 _
          exact hdisj p0 (by simp) (by rw [hp0]; exact hqc)

theorem foldl_append_data (l : List String) :
    ∀ acc : String, (l.foldl (fun r s => r ++ s) acc).data =
      acc.data ++ (l.map String.data).flatten := by
  induction l with
  | nil => intro acc; simp
  | cons x t ih =>
    intro acc
    simp only [List.foldl_cons, List.map_cons, List.flatten_cons]
    rw [ih]
    simp [String.data_append, List.append_assoc]

theorem join_data (l : List String) :
    (String.join l).data = (l.map String.data).flatten := by
  have h := foldl_append_data l ""
  simpa [String.join] using h

theorem renderRelEntry_occ (img : ImageRelationship) :
    ∃ pre post, (renderRelEntry img).data =
      pre ++ idPat img.rid.data ++ post := by
  refine ⟨("<Relationship " : String).data,
    (" Type=\"" ++ IMAGE_REL ++ "\" Target=\"" ++ img.target ++ "\"/>" :
      String).data, ?_⟩
  have key1 : ("<Relationship Id=\"" : String).data =
      ("<Relationship " : String).data ++ ['I', 'd', '=', '"'] := by decide
  have key2 : ("\" Type=\"" : String).data =
      '"' :: (" Type=\"" : String).data := by decide
  unfold renderRelEntry idPat
  simp only [String.data_append, key1, key2]
  simp [List.append_assoc]

theorem idPat_disjoint_close {r : List Char} (h : canonicalRid ⟨r⟩ = true) :
    ∀ x ∈ idPat r, x ∉ relCloseTag.data := by
  obtain ⟨ds, hne, hdig, hr⟩ := (canonicalRid_iff ⟨r⟩).mp h
  have hr' : r = 'r' :: 'I' :: 'd' :: ds := hr
  subst hr'
  intro x hx hmem
  have hclose_nodigit : ∀ c ∈ relCloseTag.data, c.isDigit = false := by decide
  have hx' : x = 'I' ∨ x = 'd' ∨ x = '=' ∨ x = '"' ∨ x = 'r' ∨ x ∈ ds := by
    simp only [idPat, List.mem_cons, List.mem_append, List.mem_singleton]
      at hx
    tauto
  rcases hx' with rfl | rfl | rfl | rfl | rfl | hxds
  · exact absurd hmem (by decide)
  · exact absurd hmem (by decide)
  · exact absurd hmem (by decide)
  · exact absurd hmem (by decide)
  · exact absurd hmem (by decide)
  · have hd := hdig x hxds
    rw [hclose_nodigit x hmem] at hd
    exact absurd hd (by decide)

theorem ensure_some_close (s : String) (E : List ImageRelationship)
    (ht : ((jsTrim s.data).length != 0) = true)
    (hc : containsSub s.data relCloseTag.data = true) :
    ensureImageRelationships (some s) E =
      ⟨replaceFirst s.data relCloseTag.data
        ((String.join ((E.filter
          (fun img => !((scanIds s.data).contains img.rid.data))).map
          renderRelEntry)).data ++ relCloseTag.data)⟩ := by
  simp [ensureImageRelationships, ht, hc]

theorem ensure_none_merge (E : List ImageRelationship) :
    ensureImageRelationships none E =
      ⟨replaceFirst (xmlHeader ++ relOpenTag ++ relCloseTag : String).data
        relCloseTag.data
        ((String.join ((E.filter (fun img =>
          !((scanIds
            (xmlHeader ++ relOpenTag ++ relCloseTag : String).data).contains
            img.rid.data))).map renderRelEntry)).data ++
          relCloseTag.data)⟩ := by
  have hc : containsSub
      (xmlHeader.data ++ (relOpenTag.data ++ relCloseTag.data))
      relCloseTag.data = true := by decide
  simp [ensureImageRelationships, String.data_append, List.append_assoc, hc]

theorem ensure_blank_merge (s : String) (E : List ImageRelationship)
    (ht : ((jsTrim s.data).length != 0) = false) :
    ensureImageRelationships (some s) E = ensureImageRelationships none E := by
  simp [ensureImageRelationships, ht]

theorem join_split {α : Type} (f : α → String) (L : List α) (a : α)
    (ha : a ∈ L) :
    ∃ X Y, (String.join (L.map f)).data = X ++ (f a).data ++ Y := by
  obtain ⟨L1, L2, hs⟩ := List.append_of_mem ha
  refine ⟨((L1.map f).map String.data).flatten,
    ((L2.map f).map String.data).flatten, ?_⟩
  rw [hs, join_data]
  simp [List.append_assoc]

theorem mem_scan_merge (base : String) (E : List ImageRelationship)
    (hE : ∀ i ∈ E, canonicalRid i.rid = true)
    (hclose : containsSub base.data relCloseTag.data = true)
    (img : ImageRelationship) (hmem : img ∈ E) :
    img.rid.data ∈ scanIds
      (replaceFirst base.data relCloseTag.data
        ((String.join ((E.filter
          (fun i => !((scanIds base.data).contains i.rid.data))).map
          renderRelEntry)).data ++ relCloseTag.data)) := by
  obtain ⟨ds, hdne, hdd, hrd⟩ := (canonicalRid_iff img.rid).mp (hE img hmem)
  obtain ⟨A, B, hAB, hrep⟩ := replaceFirst_decomp base.data relCloseTag.data
    ((String.join ((E.filter
      (fun i => !((scanIds base.data).contains i.rid.data))).map
      renderRelEntry)).data ++ relCloseTag.data) hclose
  rw [hrep]
  suffices hocc : ∃ u v, A ++ ((String.join ((E.filter
      (fun i => !((scanIds base.data).contains i.rid.data))).map
      renderRelEntry)).data ++ relCloseTag.data) ++ B =
      u ++ idPat img.rid.data ++ v by
    obtain ⟨u, v, huv⟩ := hocc
    rw [hrd] at huv
    rw [huv, hrd]
    simpa [scanIds] using scan_mem ds hdne hdd
      ((u ++ idPat ('r' :: 'I' :: 'd' :: ds) ++ v).length) u v (le_refl _)
  by_cases hin : img.rid.data ∈ scanIds base.data
  · have hin' : img.rid.data ∈ scanIdsAux base.data.length base.data := by
      simpa [scanIds] using hin
    obtain ⟨⟨u, v, hbase_occ⟩, _⟩ :=
      scan_sound base.data.length base.data img.rid.data hin'
    have hP_ne : idPat img.rid.data ≠ [] := by simp [idPat]
    have hc_ne : relCloseTag.data ≠ [] := by decide
    have hdisj : ∀ x ∈ idPat img.rid.data, x ∉ relCloseTag.data :=
      idPat_disjoint_close (hE img hmem)
    have hsplit := occ_split hdisj hc_ne hP_ne u v A B
      (by rw [← hbase_occ]; exact hAB)
    rcases hsplit with ⟨w, hA⟩ | ⟨w, w', hB⟩
    · refine ⟨u, w ++ ((String.join ((E.filter
        (fun i => !((scanIds base.data).contains i.rid.data))).map
        renderRelEntry)).data ++ relCloseTag.data) ++ B, ?_⟩
      rw [hA]
      simp [List.append_assoc]
    · refine ⟨A ++ ((String.join ((E.filter
        (fun i => !((scanIds base.data).contains i.rid.data))).map
        renderRelEntry)).data ++ relCloseTag.data) ++ w, w', ?_⟩
      rw [hB]
      simp [List.append_assoc]
  · have hpred : (!((scanIds base.data).contains img.rid.data)) = true := by
      simpa using hin
    have hfil : img ∈ E.filter
        (fun i => !((scanIds base.data).contains i.rid.data)) :=
      List.mem_filter.mpr ⟨hmem, hpred⟩
    obtain ⟨X, Y, hXY⟩ := join_split renderRelEntry _ img hfil
    obtain ⟨pre, post, hentry⟩ := renderRelEntry_occ img
    refine ⟨A ++ (X ++ pre),
      post ++ Y ++ relCloseTag.data ++ B, ?_⟩
    rw [hXY, hentry]
    simp [List.append_assoc]

theorem merge_contains_close (base : String) (adds : List Char)
    (hclose : containsSub base.data relCloseTag.data = true) :
    containsSub (replaceFirst base.data relCloseTag.data
      (adds ++ relCloseTag.data)) relCloseTag.data = true := by
  obtain ⟨A, B, _, hrep⟩ := replaceFirst_decomp base.data relCloseTag.data
    (adds ++ relCloseTag.data) hclose
  rw [hrep]
  have h := containsSub_intro relCloseTag.data (A ++ adds) B
  simpa [List.append_assoc] using h

theorem ensure_some_noclose (s : String) (E : List ImageRelationship)
    (ht : ((jsTrim s.data).length != 0) = true)
    (hc : containsSub s.data relCloseTag.data = false) :
    ensureImageRelationships (some s) E =
      xmlHeader ++ relOpenTag ++ String.join ((E.filter
        (fun img => !((scanIds s.data).contains img.rid.data))).map
        renderRelEntry) ++ relCloseTag := by
  simp [ensureImageRelationships, ht, hc]

theorem ensure_contains_close (M : Option String)
    (E : List ImageRelationship) :
    containsSub (ensureImageRelationships M E).data relCloseTag.data =
      true := by
  cases M with
  | none =>
    rw [ensure_none_merge]
    exact merge_contains_close _ _ (by decide)
  | some s =>
    cases ht : ((jsTrim s.data).length != 0) with
    | false =>
      rw [ensure_blank_merge s E ht, ensure_none_merge]
      exact merge_contains_close _ _ (by decide)
    | true =>
      cases hc : containsSub s.data relCloseTag.data with
      | true =>
        rw [ensure_some_close s E ht hc]
        exact merge_contains_close s _ hc
      | false =>
        rw [ensure_some_noclose s E ht hc]
        have h := containsSub_intro relCloseTag.data
          (xmlHeader.data ++ relOpenTag.data ++ (String.join ((E.filter
            (fun img => !((scanIds s.data).contains img.rid.data))).map
            renderRelEntry)).data) []
        simpa [String.data_append, List.append_assoc] using h

theorem trim_cond_of_close (s : String)
    (hc : containsSub s.data relCloseTag.data = true) :
    ((jsTrim s.data).length != 0) = true := by
  obtain ⟨u, v, huv⟩ := containsSub_sound s.data relCloseTag.data hc
  have hlt : '<' ∈ relCloseTag.data := by decide
  have hmem : '<' ∈ s.data := by
    rw [huv]
    exact List.mem_append.mpr (Or.inl (List.mem_append.mpr (Or.inr hlt)))
  have hne := jsTrim_ne_nil hmem (by decide)
  cases hjt : jsTrim s.data with
  | nil => exact absurd hjt hne
  | cons a l => simp

theorem ensure_mem_scan (M : Option String) (E : List ImageRelationship)
    (hE : ∀ i ∈ E, canonicalRid i.rid = true)
    (hM : M = none ∨ ∃ s, M = some s ∧
      (((jsTrim s.data).length != 0) = false ∨
        containsSub s.data relCloseTag.data = true)) :
    ∀ img ∈ E, img.rid.data ∈
      scanIds (ensureImageRelationships M E).data := by
  intro img hmem
  rcases hM with rfl | ⟨s, rfl, hs⟩
  · rw [ensure_none_merge]
    exact mem_scan_merge _ E hE (by decide) img hmem
  · rcases hs with ht | hc
    · rw [ensure_blank_merge s E ht, ensure_none_merge]
      exact mem_scan_merge _ E hE (by decide) img hmem
    · cases ht : ((jsTrim s.data).length != 0) with
      | false =>
        rw [ensure_blank_merge s E ht, ensure_none_merge]
        exact mem_scan_merge _ E hE (by decide) img hmem
      | true =>
        rw [ensure_some_close s E ht hc]
        exact mem_scan_merge s E hE hc img hmem

theorem ensure_idem (M : Option String) (E : List ImageRelationship)
    (hE : ∀ i ∈ E, canonicalRid i.rid = true)
    (hM : M = none ∨ ∃ s, M = some s ∧
      (((jsTrim s.data).length != 0) = false ∨
        containsSub s.data relCloseTag.data = true)) :
    ensureImageRelationships (some (ensureImageRelationships M E)) E =
      ensureImageRelationships M E := by
  have hclose := ensure_contains_close M E
  have ht := trim_cond_of_close _ hclose
  rw [ensure_some_close _ E ht hclose]
  have hfil : E.filter (fun i =>
      !((scanIds (ensureImageRelationships M E).data).contains
        i.rid.data)) = [] := by
    rw [List.filter_eq_nil_iff]
    intro a ha
    have hmem := ensure_mem_scan M E hE hM a ha
    simp [hmem]
  rw [hfil]
  simp only [List.map_nil]
  have hjoin : (String.join ([] : List String)).data = [] := rfl
  rw [hjoin, List.nil_append, replaceFirst_self]

theorem ensure_preserves (s : String) (E : List ImageRelationship)
    (ht : ((jsTrim s.data).length != 0) = true)
    (hc : containsSub s.data relCloseTag.data = true) :
    ∃ A adds B, s.data = A ++ relCloseTag.data ++ B ∧
      (ensureImageRelationships (some s) E).data =
        A ++ adds ++ relCloseTag.data ++ B := by
  rw [ensure_some_close s E ht hc]
  obtain ⟨A, B, h1, h2⟩ := replaceFirst_decomp s.data relCloseTag.data
    ((String.join ((E.filter
      (fun img => !((scanIds s.data).contains img.rid.data))).map
      renderRelEntry)).data ++ relCloseTag.data) hc
  refine ⟨A, (String.join ((E.filter
    (fun img => !((scanIds s.data).contains img.rid.data))).map
    renderRelEntry)).data, B, h1, ?_⟩
  show replaceFirst s.data relCloseTag.data _ = _
  rw [h2]
  simp [List.append_assoc]

theorem ensure_none_shape (E : List ImageRelationship) :
    ∃ adds, (ensureImageRelationships none E).data =
      (xmlHeader ++ relOpenTag : String).data ++ adds ++
        relCloseTag.data := by
  rw [ensure_none_merge]
  refine ⟨(String.join ((E.filter (fun img =>
    !((scanIds
      (xmlHeader ++ relOpenTag ++ relCloseTag : String).data).contains
      img.rid.data))).map renderRelEntry)).data, ?_⟩
  have hcalc : ∀ X : List Char,
      replaceFirst (xmlHeader ++ relOpenTag ++ relCloseTag : String).data
        relCloseTag.data (X ++ relCloseTag.data) =
      (xmlHeader ++ relOpenTag : String).data ++
        ((X ++ relCloseTag.data) ++ ([] : List Char)) := fun X => rfl
  show replaceFirst _ _ _ = _
  rw [hcalc]
  simp [List.append_assoc]

/-- C4 counterexample: with existing manifest `Id="rId4"` (non-blank, no
closing tag) and required entries `x` then `rId4`, the reconciler is not
idempotent — the non-canonical id `x` is invisible to the scanner, so a
second pass appends its entry again — and the original manifest text
`Id="rId4"` is discarded rather than preserved, because a base without
`</Relationships>` is replaced by a fresh document. -/
theorem claim_C4_counterexample :
    ensureImageRelationships
      (some (ensureImageRelationships (some "Id=\"rId4\"")
        [⟨"x", "media/x.png"⟩, ⟨"rId4", "media/image1.png"⟩]))
      [⟨"x", "media/x.png"⟩, ⟨"rId4", "media/image1.png"⟩] ≠
    ensureImageRelationships (some "Id=\"rId4\"")
      [⟨"x", "media/x.png"⟩, ⟨"rId4", "media/image1.png"⟩] ∧
    containsSub (ensureImageRelationships (some "Id=\"rId4\"")
      [⟨"x", "media/x.png"⟩, ⟨"rId4", "media/image1.png"⟩]).data
      "Id=\"rId4\"".data = false := by
  exact ⟨by decide, by decide⟩

/-- C4 (amended): when every required entry's id is canonical (`rId`
followed by digits) and the existing manifest is absent, blank, or
contains the closing `</Relationships>` tag, `ensureImageRelationships`
is idempotent; a non-blank manifest containing the closing tag is
preserved verbatim with the additions inserted before its first closing
tag; and an absent manifest yields a well-formed document (header and
opening tag, then entries, then the closing tag). -/
theorem claim_C4_amended_reconciler (M : Option String)
    (E : List ImageRelationship)
    (hE : ∀ img ∈ E, canonicalRid img.rid = true)
    (hM : M = none ∨ ∃ s, M = some s ∧
      (((jsTrim s.data).length != 0) = false ∨
        containsSub s.data relCloseTag.data = true)) :
    ensureImageRelationships (some (ensureImageRelationships M E)) E =
      ensureImageRelationships M E ∧
    (∀ s, M = some s → ((jsTrim s.data).length != 0) = true →
      containsSub s.data relCloseTag.data = true →
      ∃ A adds B, s.data = A ++ relCloseTag.data ++ B ∧
        (ensureImageRelationships M E).data =
          A ++ adds ++ relCloseTag.data ++ B) ∧
    (∃ adds, (ensureImageRelationships none E).data =
      (xmlHeader ++ relOpenTag : String).data ++ adds ++
        relCloseTag.data) := by
  refine ⟨ensure_idem M E hE hM, ?_, ensure_none_shape E⟩
  intro s hMs ht hc
  subst hMs
  exact ensure_preserves s E ht hc

/-- C4 witness: the amended theorem applied to an absent manifest and the
single canonical entry `rId4` — both hypotheses hold concretely and the
reconciled output is a fixed point of a second reconciliation. -/
theorem claim_C4_amended_reconciler_witness :
    ensureImageRelationships
      (some (ensureImageRelationships none
        [⟨"rId4", "media/image1.png"⟩]))
      [⟨"rId4", "media/image1.png"⟩] =
    ensureImageRelationships none [⟨"rId4", "media/image1.png"⟩] := by
  exact (claim_C4_amended_reconciler none [⟨"rId4", "media/image1.png"⟩]
    (by decide) (Or.inl rfl)).1
